import Mathlib

/-!
Verification of the Company-Profile-AI-Generator pipeline.

Shallow embedding of the repository's Python modules:
* `compiler.compile_html_to_pdf`        (src/compiler.py)
* `CorporateProfileGenerator.query_gemini` and `process_company`
                                        (src/companies_profile.py)
* `HtmlProfileGenerator.get_template_variables`, `_format_value`,
  `generate_html_content`              (src/html_generator.py)
* `PipelineWorker.run`                 (src/app_ui.py)
* `main`                               (src/main.py)

External effects (HTTP responses, the filesystem, thread-stop flags, the
wall clock) are passed in explicitly as environment records; machine floats
are abstracted by an environment-supplied rounding function constrained by
the monotonicity/boundedness that IEEE-754 division and truncation satisfy.
-/

namespace CompanyProfile

/-! ## Python character-level primitives (Latin-1 fragment)

The embedding models Python's Unicode-aware `str.isalnum` and `str.strip`
faithfully on the code-point range 0x00–0xFF (ASCII plus the Latin-1
supplement); strings over this range are the domain of the embedding.
-/

/-- Python `str.isalnum`, per character, on the Latin-1 range: the ASCII
alphanumerics together with the Latin-1 letters and numeric signs
(ª ² ³ µ ¹ º ¼ ½ ¾, À–Ö, Ø–ö, ø–ÿ). -/
def pyIsAlnum (c : Char) : Bool :=
  c.isAlphanum ||
    (c.toNat == 0xAA || c.toNat == 0xB2 || c.toNat == 0xB3 || c.toNat == 0xB5 ||
     c.toNat == 0xB9 || c.toNat == 0xBA ||
     (0xBC ≤ c.toNat && c.toNat ≤ 0xBE) || (0xC0 ≤ c.toNat && c.toNat ≤ 0xD6) ||
     (0xD8 ≤ c.toNat && c.toNat ≤ 0xF6) || (0xF8 ≤ c.toNat && c.toNat ≤ 0xFF))

/-- Python `str.isspace`, per character, on the Latin-1 range:
TAB LF VT FF CR, FS GS RS US, SPACE, NEL, NBSP. -/
def pyIsSpace (c : Char) : Bool :=
  (0x09 ≤ c.toNat && c.toNat ≤ 0x0D) || (0x1C ≤ c.toNat && c.toNat ≤ 0x1F) ||
    c.toNat == 0x20 || c.toNat == 0x85 || c.toNat == 0xA0

/-- Python `str.strip()`: drop whitespace from both ends. -/
def pyStrip (cs : List Char) : List Char :=
  ((cs.dropWhile pyIsSpace).reverse.dropWhile pyIsSpace).reverse

/-- Python string comparison on `list of code points`: strict lexicographic
order by code point, the order `sorted` uses on `str`. -/
def charListLe : List Char → List Char → Bool
  | [], _ => true
  | _ :: _, [] => false
  | a :: as, b :: bs =>
    if a.toNat < b.toNat then true
    else if b.toNat < a.toNat then false
    else charListLe as bs

/-- Python `<=` on strings (code-point lexicographic). -/
def pyStrLe (a b : String) : Bool := charListLe a.data b.data

/-! ## src/compiler.py — `compile_html_to_pdf` -/

namespace Compiler

/-- Environment of one `compile_html_to_pdf` call: whether importing
WeasyPrint succeeded, whether the source directory exists, the `*.html` files
the glob returns (in glob order), and which of them WeasyPrint renders
without raising. -/
structure Env where
  weasyprintAvailable : Bool
  dirExists : Bool
  htmlFiles : List String
  renderOk : String → Bool

/-- Outcome of the rendering loop: `success_count`, the files attempted
(in order), and `failed_files`. -/
structure LoopResult where
  successCount : Nat
  attempted : List String
  failedFiles : List String
deriving DecidableEq, Repr

/-- The `for html_file in html_files` loop of `compile_html_to_pdf`:
every file is attempted; a raising render lands in `failed_files`,
a successful one increments `success_count`. -/
def compileLoop (renderOk : String → Bool) : List String → LoopResult
  | [] => ⟨0, [], []⟩
  | f :: fs =>
    let r := compileLoop renderOk fs
    if renderOk f then ⟨r.successCount + 1, f :: r.attempted, r.failedFiles⟩
    else ⟨r.successCount, f :: r.attempted, f :: r.failedFiles⟩

/-- `compile_html_to_pdf(source_dir)`: `False` without WeasyPrint, `False`
when the directory is missing, otherwise run the loop over every `*.html`
file and return `success_count > 0`. The second component records which
files were attempted. -/
def compile_html_to_pdf (env : Env) : Bool × List String :=
  if !env.weasyprintAvailable then (false, [])
  else if !env.dirExists then (false, [])
  else
    let r := compileLoop env.renderOk env.htmlFiles
    (decide (r.successCount > 0), r.attempted)

end Compiler

/-! ## src/companies_profile.py — `query_gemini` -/

namespace Gemini

/-- One attempt's outcome on the wire: an HTTP response with a status code
and (for 200) the extracted candidate text, or a raised exception. -/
inductive HttpResult where
  | response (status : Nat) (text : String)
  | exc
deriving DecidableEq, Repr

/-- What a `query_gemini` call produced: the returned value, how many
HTTP requests the retry loop issued, and how many seconds it slept. -/
structure QueryOutcome where
  result : Option String
  requests : Nat
  sleepSeconds : Nat
deriving DecidableEq, Repr

/-- The `for attempt in range(3)` retry loop of `query_gemini`.
`net i` is what the `i`-th request comes back with. 200 returns the text
at once; 429 sleeps 20 s and retries; any other status, or an exception,
returns `None` at once. -/
def queryLoop (net : Nat → HttpResult) : Nat → Nat → QueryOutcome
  | _, 0 => ⟨none, 0, 0⟩
  | i, fuel + 1 =>
    match net i with
    | .response s t =>
      if s == 200 then ⟨some t, 1, 0⟩
      else if s == 429 then
        let r := queryLoop net (i + 1) fuel
        ⟨r.result, r.requests + 1, r.sleepSeconds + 20⟩
      else ⟨none, 1, 0⟩
    | .exc => ⟨none, 1, 0⟩

/-- `query_gemini` with `working_model` already selected (after the first
successful call `find_working_model` is no longer consulted): the retry
loop with three attempts. -/
def query_gemini (net : Nat → HttpResult) : QueryOutcome :=
  queryLoop net 0 3

end Gemini

/-! ## JSON-like values

The dictionaries produced by `json.load` / `generate_company_info`. -/

/-- A Python value as it arrives from `json.load`: `None`, a bool, an
integer, a string, a list or a dict (an association list; `json.load`
keeps the last binding of a duplicated key). -/
inductive JValue where
  | null
  | bool (b : Bool)
  | num (n : Int)
  | str (s : String)
  | arr (elems : List JValue)
  | obj (fields : List (String × JValue))
deriving Repr

/-- Python truthiness of such a value: `None`, `False`, `0`, `""`, `[]`
and `\x7b\x7d` are falsy, everything else truthy. -/
def pyTruthy : JValue → Bool
  | .null => false
  | .bool b => b
  | .num n => n != 0
  | .str s => s != ""
  | .arr l => !l.isEmpty
  | .obj l => !l.isEmpty

/-- Python `repr` on these values (string escaping inside `repr` of a
string is not modelled; the strings handled here contain no quotes). -/
def pyRepr : JValue → String
  | .null => "None"
  | .bool true => "True"
  | .bool false => "False"
  | .num n => toString n
  | .str s => "'" ++ s ++ "'"
  | .arr l => "[" ++ String.intercalate ", " (l.attach.map (fun x => pyRepr x.1)) ++ "]"
  | .obj l =>
    "\x7b" ++
      String.intercalate ", "
        (l.attach.map (fun x => "'" ++ x.1.1 ++ "': " ++ pyRepr x.1.2)) ++ "\x7d"
termination_by v => sizeOf v
decreasing_by
  all_goals
  first
  | (have hsz := List.sizeOf_lt_of_mem x.2
     simp only [JValue.arr.sizeOf_spec] at *
     omega)
  | (obtain ⟨⟨k, v⟩, hm⟩ := x
     have hsz := List.sizeOf_lt_of_mem hm
     simp only [Prod.mk.sizeOf_spec, JValue.obj.sizeOf_spec] at *
     omega)

/-- Python `str()` on these values: a string prints bare, everything else
prints as its `repr`. -/
def pyStr : JValue → String
  | .str s => s
  | v => pyRepr v

/-! ## src/html_generator.py — `HtmlProfileGenerator` -/

namespace HtmlGen

/-- `_format_value`: a list formats as the comma-separated recursive
formatting of its elements; a dict as the comma-separated `str()` of its
truthy values (no recursion into them); `None` as `"N/A"`; anything else
as `str(value)`. -/
def formatValue : JValue → String
  | .arr l => String.intercalate ", " (l.attach.map (fun x => formatValue x.1))
  | .obj l => String.intercalate ", " (((l.map Prod.snd).filter pyTruthy).map pyStr)
  | .null => "N/A"
  | v => pyStr v
termination_by v => sizeOf v
decreasing_by
  have := List.sizeOf_lt_of_mem x.2
  simp only [JValue.arr.sizeOf_spec] at *
  omega

/-- A character of the class `[a-zA-Z0-9_]` of the scan pattern. -/
def isWordChar (c : Char) : Bool := c.isAlphanum || c == '_'

/-- `re.findall` of the pattern `\$\\x7b([a-zA-Z0-9_]+)\\x7d`:
left-to-right, non-overlapping; at `$` `\x7b` take the maximal run of word
characters, succeed when it is non-empty and followed by `\x7d`, otherwise
resume one character past the `$`. -/
def findVars : List Char → List String
  | [] => []
  | [_] => []
  | c :: c2 :: rest2 =>
    if c == '$' then
      if c2 == '{' then
        if (rest2.takeWhile isWordChar).isEmpty then findVars (c2 :: rest2)
        else if (rest2.dropWhile isWordChar).head? == some '}' then
          String.mk (rest2.takeWhile isWordChar) ::
            findVars (rest2.dropWhile isWordChar).tail
        else findVars (c2 :: rest2)
      else findVars (c2 :: rest2)
    else findVars (c2 :: rest2)
termination_by cs => cs.length
decreasing_by
  all_goals simp only [List.length_cons]
  all_goals
  first
  | omega
  | (have hle : (List.dropWhile isWordChar rest2).length ≤ rest2.length :=
       (List.dropWhile_sublist isWordChar).length_le
     have hT : (List.dropWhile isWordChar rest2).tail.length ≤
         (List.dropWhile isWordChar rest2).length := by
       rw [List.length_tail]
       omega
     omega)

/-- The keys the script computes itself (`SYSTEM_VARIABLES`). -/
def SYSTEM_VARIABLES : List String := ["timestamp", "case_number", "logo_filename"]

/-- `get_template_variables` on a template's content: the scan results,
deduplicated (the `set`), minus the system variables, sorted in Python's
string order. -/
def get_template_variables (content : String) : List String :=
  ((findVars content.data).dedup.filter (fun v => !SYSTEM_VARIABLES.contains v)).mergeSort
    pyStrLe

/-- Spec-side reading of the scan, used to compare `get_template_variables`
with the spec's words: `v` occurs in the text as `$\x7bv\x7d` for a
non-empty identifier `v` over `[a-zA-Z0-9_]`. -/
def occursAsPlaceholder (cs : List Char) (v : String) : Prop :=
  v.data ≠ [] ∧ (∀ c ∈ v.data, isWordChar c = true) ∧
    ∃ pre post, cs = pre ++ '$' :: '{' :: (v.data ++ '}' :: post)

/-- First character of `string.Template`'s identifier pattern
`[_a-zA-Z][_a-zA-Z0-9]*`. -/
def isIdStart (c : Char) : Bool := c.isAlpha || c == '_'

/-- Continuation character of `string.Template`'s identifier pattern. -/
def isIdCont (c : Char) : Bool := c.isAlphanum || c == '_'

/-- A full `string.Template` identifier: non-empty, `[_a-zA-Z]` first,
`[_a-zA-Z0-9]` afterwards. -/
def validId : List Char → Bool
  | [] => false
  | c :: rest => isIdStart c && rest.all isIdCont

/-- `Template(template_str).safe_substitute(context)`: `$$` yields `$`;
`$\x7bid\x7d` with a valid identifier becomes `context[id]` when bound and is
left unchanged when not; bare `$id` likewise; a `$` that starts no valid
placeholder is left as is (where `substitute` would raise). -/
def safeSubstitute (ctx : String → Option String) : List Char → List Char
  | [] => []
  | [c] => if c == '$' then ['$'] else [c]
  | c :: c2 :: rest2 =>
    if c == '$' then
      if c2 == '$' then '$' :: safeSubstitute ctx rest2
      else if c2 == '{' then
        if validId (rest2.takeWhile isIdCont) &&
            (rest2.dropWhile isIdCont).head? == some '}' then
          match ctx (String.mk (rest2.takeWhile isIdCont)) with
          | some v => v.data ++ safeSubstitute ctx (rest2.dropWhile isIdCont).tail
          | none =>
            '$' :: '{' ::
              (rest2.takeWhile isIdCont ++
                '}' :: safeSubstitute ctx (rest2.dropWhile isIdCont).tail)
        else '$' :: safeSubstitute ctx (c2 :: rest2)
      else if isIdStart c2 then
        match ctx (String.mk ((c2 :: rest2).takeWhile isIdCont)) with
        | some v => v.data ++ safeSubstitute ctx ((c2 :: rest2).dropWhile isIdCont)
        | none =>
          '$' :: ((c2 :: rest2).takeWhile isIdCont ++
            safeSubstitute ctx ((c2 :: rest2).dropWhile isIdCont))
      else '$' :: safeSubstitute ctx (c2 :: rest2)
    else c :: safeSubstitute ctx (c2 :: rest2)
termination_by cs => cs.length
decreasing_by
  all_goals simp only [List.length_cons]
  all_goals
  first
  | omega
  | (have hle : (List.dropWhile isIdCont rest2).length ≤ rest2.length :=
       (List.dropWhile_sublist isIdCont).length_le
     have hT : (List.dropWhile isIdCont rest2).tail.length ≤
         (List.dropWhile isIdCont rest2).length := by
       rw [List.length_tail]
       omega
     omega)
  | (have hle : (List.dropWhile isIdCont (c2 :: rest2)).length ≤ (c2 :: rest2).length :=
       (List.dropWhile_sublist isIdCont).length_le
     simp only [List.length_cons] at hle
     omega)

/-- The values `generate_html_content` computes itself from the wall
clock before merging in the AI data. -/
structure SysVals where
  timestamp : String
  case_number : String

/-- The `context` dict of `generate_html_content` as a lookup function:
`timestamp` and `case_number` first, then every key of `company_info`
bound to `_format_value` of its value (overwriting, last binding wins). -/
def buildContext (sys : SysVals) (info : List (String × JValue)) (k : String) :
    Option String :=
  match (info.filter (fun kv => kv.1 == k)).getLast? with
  | some kv => some (formatValue kv.2)
  | none =>
    if k == "timestamp" then some sys.timestamp
    else if k == "case_number" then some sys.case_number
    else none

/-- `generate_html_content` on a readable template with content
`templateContent`: build the context, then `safe_substitute` it into the
template. -/
def generate_html_content (sys : SysVals) (templateContent : String)
    (info : List (String × JValue)) : String :=
  String.mk (safeSubstitute (buildContext sys info) templateContent.data)

end HtmlGen

/-! ## src/companies_profile.py — `process_company` -/

namespace ProcessCompany

/-- The filename-safe company name of `process_company`: keep only the
characters that are Python-alphanumeric or one of space, `-`, `_`; then
`strip()`; then turn every space into `_`. -/
def safe_name (company : String) : String :=
  String.mk
    ((pyStrip (company.data.filter
        (fun c => pyIsAlnum c || c == ' ' || c == '-' || c == '_'))).map
      (fun c => if c == ' ' then '_' else c))

/-- The path `process_company` writes: `output_dir/safe_name_data.json`. -/
def dataFileName (output_dir company : String) : String :=
  output_dir ++ "/" ++ safe_name company ++ "_data.json"

/-- Result of `process_company`: the returned pair and the data files it
wrote. -/
structure ProcessResult where
  ok : Bool
  fname : Option String
  writes : List String
deriving DecidableEq, Repr

/-- `process_company`, with the outcome of `generate_company_info` (a
network effect) supplied as `info`: the branch is Python's `if info:`, a
truthiness test, so a truthy (non-empty) dict writes the one data file
and returns `(True, fname)`, while `None` — and equally a falsy value
such as the empty dict — writes nothing and returns `(False, None)`. -/
def process_company (company : String) (output_dir : String) (info : Option JValue) :
    ProcessResult :=
  match info with
  | some d =>
    if pyTruthy d then
      ⟨true, some (dataFileName output_dir company), [dataFileName output_dir company]⟩
    else ⟨false, none, []⟩
  | none => ⟨false, none, []⟩

end ProcessCompany

/-! ## src/app_ui.py — `PipelineWorker.run`

The worker is one background thread; its only interactions are signal
emissions (log/progress/error/finished) and reads of `self.is_running`,
which another thread may flip. The embedding produces the sequence of
emissions as a trace. `running k` is the value the `k`-th read of
`self.is_running` observes; `prog s t` is `int((s / t) * 100)`, the
float computation abstracted as an environment function. -/

namespace Worker

/-- One observable emission of the worker, tagged with the phase of
`run` that emits it (0 template analysis, 1 AI generation, 2 logos,
3 HTML, 4 PDF). -/
inductive Ev where
  | banner (phase : Nat)
  | item (phase : Nat) (name : String)
  | progress (phase : Nat) (value : Nat)
  | errorEmit (phase : Nat)
  | finishedEmit
deriving DecidableEq, Repr

/-- The phase a trace event belongs to (`finished` closes phase 4). -/
def Ev.phase : Ev → Nat
  | .banner p => p
  | .item p _ => p
  | .progress p _ => p
  | .errorEmit p => p
  | .finishedEmit => 4

/-- Environment of one `run`: the (already stripped, non-empty) company
list, whether the chosen template exists, whether the generator
constructor accepts the API key, the `*_data.json` glob result after
phase 1, the `is_running` reads, and the progress rounding function. -/
structure Env where
  companies : List String
  templateExists : Bool
  apiKeyOk : Bool
  dataFiles : List String
  running : Nat → Bool
  prog : Nat → Nat → Nat

/-- The ten one-second `is_running` polls of the safety cooldown between
consecutive companies: true when none observed a stop. -/
def cooldownOk (env : Env) (k : Nat) : Bool :=
  (List.range 10).all (fun j => env.running (k + j))

/-- Phase 1 loop (`for i, company in enumerate(self.companies)`):
check `is_running`, process the company, bump `current_step`, emit
progress, and between companies run the cooldown. Returns the emitted
events, the next `is_running` read index, the next `current_step`, and
whether the loop ran to completion. -/
def phase1 (env : Env) (total : Nat) :
    List String → Nat → Nat → List Ev × Nat × Nat × Bool
  | [], k, step => ([], k, step, true)
  | c :: cs, k, step =>
    if env.running k then
      let evs := [Ev.item 1 c, Ev.progress 1 (env.prog (step + 1) total)]
      if cs.isEmpty then
        let r := phase1 env total cs (k + 1) (step + 1)
        (evs ++ r.1, r.2.1, r.2.2.1, r.2.2.2)
      else if cooldownOk env (k + 1) then
        let r := phase1 env total cs (k + 11) (step + 1)
        (evs ++ r.1, r.2.1, r.2.2.1, r.2.2.2)
      else (evs, k + 11, step + 1, false)
    else ([], k, step, false)

/-- Phases 2 and 3 share this shape (`for json_file in json_files`):
check `is_running`, handle the file, bump `current_step`, emit
progress. -/
def fileLoop (env : Env) (phase : Nat) (total : Nat) :
    List String → Nat → Nat → List Ev × Nat × Nat × Bool
  | [], k, step => ([], k, step, true)
  | f :: fs, k, step =>
    if env.running k then
      let r := fileLoop env phase total fs (k + 1) (step + 1)
      (Ev.item phase f :: Ev.progress phase (env.prog (step + 1) total) :: r.1,
        r.2.1, r.2.2.1, r.2.2.2)
    else ([], k, step, false)

/-- `PipelineWorker.run`: the full trace and whether the run completed
(reached the final `progress(100)`/`finished` emissions rather than
returning early on a missing template, a rejected API key, or a stop). -/
def run (env : Env) : List Ev × Bool :=
  let total := env.companies.length * 3 + 1
  if !env.templateExists then ([Ev.banner 0, Ev.errorEmit 0], false)
  else if !env.apiKeyOk then ([Ev.banner 0, Ev.banner 1, Ev.errorEmit 1], false)
  else
    let r1 := phase1 env total env.companies 0 0
    if !r1.2.2.2 then ([Ev.banner 0, Ev.banner 1] ++ r1.1, false)
    else
      let r2 := fileLoop env 2 total env.dataFiles r1.2.1 r1.2.2.1
      if !r2.2.2.2 then
        ([Ev.banner 0, Ev.banner 1] ++ r1.1 ++ (Ev.banner 2 :: r2.1), false)
      else
        let r3 := fileLoop env 3 total env.dataFiles r2.2.1 r2.2.2.1
        if !r3.2.2.2 then
          ([Ev.banner 0, Ev.banner 1] ++ r1.1 ++ (Ev.banner 2 :: r2.1) ++
            (Ev.banner 3 :: r3.1), false)
        else
          ([Ev.banner 0, Ev.banner 1] ++ r1.1 ++ (Ev.banner 2 :: r2.1) ++
            (Ev.banner 3 :: r3.1) ++
            [Ev.banner 4, Ev.progress 4 100, Ev.finishedEmit], true)

/-- The work items a trace handles in a given phase, in order. -/
def itemsOf (p : Nat) (tr : List Ev) : List String :=
  tr.filterMap (fun e =>
    match e with
    | .item q n => if q == p then some n else none
    | _ => none)

/-- The progress values a trace emits, in order. -/
def progressValues (tr : List Ev) : List Nat :=
  tr.filterMap (fun e =>
    match e with
    | .progress _ v => some v
    | _ => none)

/-- The exact progress arithmetic `int((s / t) * 100)` evaluates to when
the float round-off is ignored; one admissible instance of `Env.prog`. -/
def floorProg (s t : Nat) : Nat := s * 100 / t

end Worker

/-! ## src/main.py — `main` -/

namespace Main

/-- Environment of one `main()` run: the `GEMINI_API_KEY` value, the
`TARGET_COMPANIES` list, and the `*_data.json` glob result after step 1
(the files just written plus any left from earlier runs). -/
structure Env where
  apiKey : Option String
  companies : List String
  dataFiles : List String

/-- One observable step of `main`. -/
inductive Step where
  | noKey
  | aiPhase (company : String)
  | noData
  | logoPhase (dataFile : String)
  | htmlPhase (dataFile : String)
  | pdfPhase
deriving DecidableEq, Repr

/-- `main()` as the sequence of steps it performs. Without the API key it
returns at once. Step 1 (`process_companies_from_list`; the method is
modelled from the spec as processing each listed company in turn) always
runs. When the glob then finds no data files, steps 2–4 are skipped;
otherwise step 2 handles every data file (logos), step 3 handles every
data file (HTML), and step 4 renders the PDFs. -/
def mainRun (env : Env) : List Step :=
  match env.apiKey with
  | none => [Step.noKey]
  | some _ =>
    let s1 := env.companies.map Step.aiPhase
    if env.dataFiles.isEmpty then s1 ++ [Step.noData]
    else
      s1 ++ env.dataFiles.map Step.logoPhase ++ env.dataFiles.map Step.htmlPhase ++
        [Step.pdfPhase]

/-- The four phases of the spec sentence as a trace check: some AI-phase
step, some logo-phase step, some HTML-phase step and the PDF step all
occur. -/
def performsAllFourPhases (tr : List Step) : Bool :=
  (tr.any fun s => match s with | .aiPhase _ => true | _ => false) &&
  (tr.any fun s => match s with | .logoPhase _ => true | _ => false) &&
  (tr.any fun s => match s with | .htmlPhase _ => true | _ => false) &&
  (tr.any fun s => match s with | .pdfPhase => true | _ => false)

end Main

/-! ## Order lemmas for Python string comparison -/

theorem charListLe_trans :
    ∀ a b c : List Char, charListLe a b = true → charListLe b c = true →
      charListLe a c = true := by
  intro a
  induction a with
  | nil => intro b c _ _; rfl
  | cons x as ih =>
    intro b c hab hbc
    cases b with
    | nil => simp [charListLe] at hab
    | cons y bs =>
      cases c with
      | nil => simp [charListLe] at hbc
      | cons z cs =>
        simp only [charListLe] at hab hbc ⊢
        have Hab : x.toNat < y.toNat ∨ (x.toNat = y.toNat ∧ charListLe as bs = true) := by
          by_cases h1 : x.toNat < y.toNat
          · exact Or.inl h1
          · by_cases h2 : y.toNat < x.toNat
            · simp [h1, h2] at hab
            · exact Or.inr ⟨by omega, by simpa [h1, h2] using hab⟩
        have Hbc : y.toNat < z.toNat ∨ (y.toNat = z.toNat ∧ charListLe bs cs = true) := by
          by_cases h3 : y.toNat < z.toNat
          · exact Or.inl h3
          · by_cases h4 : z.toNat < y.toNat
            · simp [h3, h4] at hbc
            · exact Or.inr ⟨by omega, by simpa [h3, h4] using hbc⟩
        rcases Hab with h | ⟨he, hr⟩ <;> rcases Hbc with h' | ⟨he', hr'⟩
        · simp [show x.toNat < z.toNat by omega]
        · simp [show x.toNat < z.toNat by omega]
        · simp [show x.toNat < z.toNat by omega]
        · simp [show ¬x.toNat < z.toNat by omega, show ¬z.toNat < x.toNat by omega]
          exact ih bs cs hr hr'

theorem charListLe_total :
    ∀ a b : List Char, (charListLe a b || charListLe b a) = true := by
  intro a
  induction a with
  | nil => intro b; simp [charListLe]
  | cons x as ih =>
    intro b
    cases b with
    | nil => simp [charListLe]
    | cons y bs =>
      simp only [charListLe]
      by_cases h1 : x.toNat < y.toNat
      · simp [h1]
      · by_cases h2 : y.toNat < x.toNat
        · simp [h1, h2]
        · simpa [h1, h2] using ih bs

/-! ## C10 — src/compiler.py -/

theorem compileLoop_attempted (renderOk : String → Bool) :
    ∀ fs : List String, (Compiler.compileLoop renderOk fs).attempted = fs := by
  intro fs
  induction fs with
  | nil => rfl
  | cons f fs ih =>
    simp only [Compiler.compileLoop]
    split <;> simpa using ih

theorem compileLoop_successCount_pos (renderOk : String → Bool) :
    ∀ fs : List String,
      0 < (Compiler.compileLoop renderOk fs).successCount ↔
        ∃ f ∈ fs, renderOk f = true := by
  intro fs
  induction fs with
  | nil => simp [Compiler.compileLoop]
  | cons f fs ih =>
    simp only [Compiler.compileLoop]
    split
    · rename_i h
      simp only [List.mem_cons]
      constructor
      · intro _; exact ⟨f, Or.inl rfl, h⟩
      · intro _; simp
    · rename_i h
      simp only [List.mem_cons]
      constructor
      · intro hp
        obtain ⟨g, hg, hok⟩ := ih.mp hp
        exact ⟨g, Or.inr hg, hok⟩
      · rintro ⟨g, (rfl | hg), hok⟩
        · simp [hok] at h
        · exact ih.mpr ⟨g, hg, hok⟩

/-- C10: `compile_html_to_pdf` returns `False` when WeasyPrint is missing
or the source directory does not exist; otherwise it attempts every
`*.html` file in the directory (failures do not stop the loop) and
returns `True` exactly when at least one file rendered successfully. -/
theorem compile_html_to_pdf_spec (env : Compiler.Env) :
    (env.weasyprintAvailable = false → Compiler.compile_html_to_pdf env = (false, [])) ∧
    (env.dirExists = false → Compiler.compile_html_to_pdf env = (false, [])) ∧
    (env.weasyprintAvailable = true → env.dirExists = true →
      (Compiler.compile_html_to_pdf env).2 = env.htmlFiles ∧
        ((Compiler.compile_html_to_pdf env).1 = true ↔
          ∃ f ∈ env.htmlFiles, env.renderOk f = true)) := by
  obtain ⟨avail, dirE, files, ok⟩ := env
  refine ⟨?_, ?_, ?_⟩
  · rintro rfl
    rfl
  · rintro rfl
    cases avail <;> rfl
  · rintro rfl rfl
    constructor
    · simpa [Compiler.compile_html_to_pdf] using compileLoop_attempted ok files
    · show (decide (0 < (Compiler.compileLoop ok files).successCount) = true) ↔ _
      rw [decide_eq_true_eq]
      exact compileLoop_successCount_pos ok files

/-- C10 witness: one environment with an existing directory, one failing
and one succeeding file. -/
theorem compile_html_to_pdf_spec_witness :
    (Compiler.compile_html_to_pdf
        ⟨true, true, ["a.html", "b.html"], fun f => f == "b.html"⟩).2 =
        ["a.html", "b.html"] ∧
      ((Compiler.compile_html_to_pdf
          ⟨true, true, ["a.html", "b.html"], fun f => f == "b.html"⟩).1 = true ↔
        ∃ f ∈ ["a.html", "b.html"], (f == "b.html") = true) :=
  (compile_html_to_pdf_spec ⟨true, true, ["a.html", "b.html"], fun f => f == "b.html"⟩).2.2
    rfl rfl

/-! ## C4 — src/companies_profile.py, `query_gemini` -/

theorem queryLoop_requests_le (net : Nat → Gemini.HttpResult) :
    ∀ fuel i, (Gemini.queryLoop net i fuel).requests ≤ fuel := by
  intro fuel
  induction fuel with
  | zero => intro i; simp [Gemini.queryLoop]
  | succ n ih =>
    intro i
    simp only [Gemini.queryLoop]
    cases net i with
    | response s t =>
      by_cases h200 : s == 200
      · simp [h200]
      · by_cases h429 : s == 429
        · simp only [h200, h429, Bool.false_eq_true, if_false, if_true]
          exact Nat.succ_le_succ (ih (i + 1))
        · simp [h200, h429]
    | exc => simp

/-- C4: the `query_gemini` retry loop performs at most 3 request attempts;
a 200 returns the extracted text after one request with no sleep; any
status other than 200/429, or an exception, returns `None` after one
request without retrying; three consecutive 429s return `None` after
exactly 3 requests and 60 s of waiting (20 s after each 429). -/
theorem query_gemini_retry_spec (net : Nat → Gemini.HttpResult) :
    ((Gemini.query_gemini net).requests ≤ 3) ∧
    (∀ t, net 0 = Gemini.HttpResult.response 200 t →
      Gemini.query_gemini net = ⟨some t, 1, 0⟩) ∧
    (∀ s t, net 0 = Gemini.HttpResult.response s t → s ≠ 200 → s ≠ 429 →
      Gemini.query_gemini net = ⟨none, 1, 0⟩) ∧
    (net 0 = Gemini.HttpResult.exc → Gemini.query_gemini net = ⟨none, 1, 0⟩) ∧
    ((∀ i, i < 3 → ∃ t, net i = Gemini.HttpResult.response 429 t) →
      Gemini.query_gemini net = ⟨none, 3, 60⟩) := by
  refine ⟨queryLoop_requests_le net 3 0, ?_, ?_, ?_, ?_⟩
  · intro t h
    simp [Gemini.query_gemini, Gemini.queryLoop, h]
  · intro s t h hs200 hs429
    simp [Gemini.query_gemini, Gemini.queryLoop, h, hs200, hs429]
  · intro h
    simp [Gemini.query_gemini, Gemini.queryLoop, h]
  · intro h
    obtain ⟨t0, h0⟩ := h 0 (by omega)
    obtain ⟨t1, h1⟩ := h 1 (by omega)
    obtain ⟨t2, h2⟩ := h 2 (by omega)
    simp [Gemini.query_gemini, Gemini.queryLoop, h0, h1, h2]

/-- C4 witness: a network that answers 429 to everything. -/
theorem query_gemini_retry_witness :
    Gemini.query_gemini (fun _ => Gemini.HttpResult.response 429 "quota") =
      ⟨none, 3, 60⟩ :=
  (query_gemini_retry_spec (fun _ => Gemini.HttpResult.response 429 "quota")).2.2.2.2
    (fun _ _ => ⟨"quota", rfl⟩)

/-! ## C9 — src/companies_profile.py, `process_company` -/

/-- C9 counterexample: the branch in `process_company` is `if info:`, a
Python truthiness test, so the empty dict — a dictionary — takes the
failure path: the code returns `(False, None)` and writes nothing where
the claim promises `(True, path)` and one write. -/
theorem process_company_truthy_counterexample :
    ProcessCompany.process_company "Nokia" "output" (some (JValue.obj [])) =
      ⟨false, none, []⟩ ∧
    ProcessCompany.process_company "Nokia" "output" (some (JValue.obj [])) ≠
      ⟨true, some (ProcessCompany.dataFileName "output" "Nokia"),
        [ProcessCompany.dataFileName "output" "Nokia"]⟩ := by
  constructor
  · rfl
  · intro h
    simp [ProcessCompany.process_company, pyTruthy] at h

/-- C9 (amended): when `generate_company_info` yields a truthy
(non-empty) dict, `process_company` returns `(True, fname)` and writes
exactly that one data file; when it yields `None` — or a falsy value
such as the empty dict — it returns `(False, None)` and writes nothing,
so no partial data file is produced on the failure path. -/
theorem process_company_spec (company dir : String) (info : Option JValue) :
    (∀ d, info = some d → pyTruthy d = true →
      ProcessCompany.process_company company dir info =
        ⟨true, some (ProcessCompany.dataFileName dir company),
          [ProcessCompany.dataFileName dir company]⟩) ∧
    (∀ d, info = some d → pyTruthy d = false →
      ProcessCompany.process_company company dir info = ⟨false, none, []⟩) ∧
    (info = none →
      ProcessCompany.process_company company dir info = ⟨false, none, []⟩) := by
  refine ⟨?_, ?_, ?_⟩
  · rintro d rfl ht
    simp [ProcessCompany.process_company, ht]
  · rintro d rfl ht
    simp [ProcessCompany.process_company, ht]
  · rintro rfl
    rfl

/-- C9 witness: a truthy-dict generation and a failed (`None`)
generation for one company. -/
theorem process_company_spec_witness :
    ProcessCompany.process_company "Nokia" "output"
        (some (JValue.obj [("name", JValue.str "Nokia")])) =
      ⟨true, some "output/Nokia_data.json", ["output/Nokia_data.json"]⟩ ∧
    ProcessCompany.process_company "Nokia" "output" none = ⟨false, none, []⟩ := by
  constructor
  · exact ((process_company_spec "Nokia" "output"
      (some (JValue.obj [("name", JValue.str "Nokia")]))).1
      (JValue.obj [("name", JValue.str "Nokia")]) rfl (by decide)).trans (by decide)
  · exact (process_company_spec "Nokia" "output" none).2.2 rfl

/-! ## C8 — src/html_generator.py, `_format_value` -/

/-- C8: `_format_value` is total (it is a function in this development)
and satisfies its case analysis: `None ↦ "N/A"`; a list maps to the
comma-separated recursive formatting of its elements; a dict maps to the
comma-separated `str()` of its truthy values only, without recursing into
them; any other value maps to `str(value)`. -/
theorem format_value_spec :
    HtmlGen.formatValue JValue.null = "N/A" ∧
    (∀ s, HtmlGen.formatValue (JValue.str s) = s) ∧
    (∀ n, HtmlGen.formatValue (JValue.num n) = toString n) ∧
    (HtmlGen.formatValue (JValue.bool true) = "True" ∧
      HtmlGen.formatValue (JValue.bool false) = "False") ∧
    (∀ l, HtmlGen.formatValue (JValue.arr l) =
      String.intercalate ", " (l.map HtmlGen.formatValue)) ∧
    (∀ kvs, HtmlGen.formatValue (JValue.obj kvs) =
      String.intercalate ", " (((kvs.map Prod.snd).filter pyTruthy).map pyStr)) := by
  refine ⟨?_, ?_, ?_, ⟨?_, ?_⟩, ?_, ?_⟩
  · simp [HtmlGen.formatValue, pyStr, pyRepr]
  · intro s
    simp [HtmlGen.formatValue, pyStr]
  · intro n
    simp [HtmlGen.formatValue, pyStr, pyRepr]
  · simp [HtmlGen.formatValue, pyStr, pyRepr]
  · simp [HtmlGen.formatValue, pyStr, pyRepr]
  · intro l
    rw [HtmlGen.formatValue]
    rw [List.attach_map_coe]
  · intro kvs
    rw [HtmlGen.formatValue]

/-! ## C7 — src/companies_profile.py, the data-file name -/

/-- C7 counterexample: Python's `isalnum` is Unicode-aware, so the
company name `"Café"` keeps its non-ASCII letter and the derived data
file name contains a character that is neither an ASCII alphanumeric nor
`-` nor `_`. -/
theorem safe_name_ascii_counterexample :
    ProcessCompany.dataFileName "output" "Café" = "output/Café_data.json" ∧
      'é' ∈ (ProcessCompany.safe_name "Café").data ∧
      ¬('é'.isAlphanum = true ∨ 'é' = '-' ∨ 'é' = '_') := by
  decide

/-- C7 (amended): every character of the name `process_company` derives,
before the `_data.json` suffix, is Python-alphanumeric, `-` or `_`
(characters outside that set plus space are dropped, the result is
stripped, remaining spaces become `_`); when the company name is pure
ASCII the characters are ASCII alphanumerics, `-` or `_`. The
hypothesis restricts inputs to the Latin-1 range on which the embedding
models Python's Unicode tables. -/
theorem safe_name_charset (company : String)
    (hdom : ∀ c ∈ company.data, c.toNat ≤ 0xFF) :
    (∀ c ∈ (ProcessCompany.safe_name company).data,
      pyIsAlnum c = true ∨ c = '-' ∨ c = '_') ∧
    ((∀ c ∈ company.data, c.toNat < 0x80) →
      ∀ c ∈ (ProcessCompany.safe_name company).data,
        c.isAlphanum = true ∨ c = '-' ∨ c = '_') := by
  have mem_strip : ∀ (l : List Char) (c : Char), c ∈ pyStrip l → c ∈ l := by
    intro l c hc
    unfold pyStrip at hc
    rw [List.mem_reverse] at hc
    have hc2 := (List.dropWhile_sublist pyIsSpace).mem hc
    rw [List.mem_reverse] at hc2
    exact (List.dropWhile_sublist pyIsSpace).mem hc2
  have main : ∀ c ∈ (ProcessCompany.safe_name company).data,
      ∃ c₀ ∈ company.data,
        (pyIsAlnum c₀ || c₀ == ' ' || c₀ == '-' || c₀ == '_') = true ∧
          c = (if c₀ == ' ' then '_' else c₀) := by
    intro c hc
    unfold ProcessCompany.safe_name at hc
    rw [List.mem_map] at hc
    obtain ⟨c₀, hc₀, hmap⟩ := hc
    have hkept := mem_strip _ _ hc₀
    rw [List.mem_filter] at hkept
    exact ⟨c₀, hkept.1, hkept.2, hmap.symm⟩
  have split_pred : ∀ c₀ : Char,
      (pyIsAlnum c₀ || c₀ == ' ' || c₀ == '-' || c₀ == '_') = true →
        pyIsAlnum c₀ = true ∨ c₀ = ' ' ∨ c₀ = '-' ∨ c₀ = '_' := by
    intro c₀ h
    simp only [Bool.or_eq_true, beq_iff_eq] at h
    tauto
  constructor
  · intro c hc
    obtain ⟨c₀, _, hpred, hmap⟩ := main c hc
    by_cases hsp : (c₀ == ' ') = true
    · right; right
      rw [hmap, if_pos hsp]
    · rw [hmap, if_neg hsp]
      rcases split_pred c₀ hpred with h | h | h | h
      · exact Or.inl h
      · exact absurd h (by simpa using hsp)
      · exact Or.inr (Or.inl h)
      · exact Or.inr (Or.inr h)
  · intro hascii c hc
    obtain ⟨c₀, hmem, hpred, hmap⟩ := main c hc
    by_cases hsp : (c₀ == ' ') = true
    · right; right
      rw [hmap, if_pos hsp]
    · rw [hmap, if_neg hsp]
      rcases split_pred c₀ hpred with h | h | h | h
      · left
        have hlt := hascii c₀ hmem
        have h2 : c₀.isAlphanum = true ∨ 0xAA ≤ c₀.toNat := by
          unfold pyIsAlnum at h
          simp only [Bool.or_eq_true, Bool.and_eq_true, beq_iff_eq,
            decide_eq_true_eq] at h
          rcases h with h | h
          · exact Or.inl h
          · right
            rcases h with ((((((((h | h) | h) | h) | h) | h) | h) | h) | h) | h <;> omega
        rcases h2 with h2 | h2
        · exact h2
        · omega
      · exact absurd h (by simpa using hsp)
      · exact Or.inr (Or.inl h)
      · exact Or.inr (Or.inr h)

/-- C7 witness: an ASCII company name with a space; the derived characters
are ASCII alphanumerics, `-` or `_`. -/
theorem safe_name_charset_witness :
    pyIsAlnum 'R' = true ∨ 'R' = '-' ∨ 'R' = '_' :=
  (safe_name_charset "Rovio Entertainment" (by decide)).1 'R' (by decide)

/-! ## C2 — src/html_generator.py, `get_template_variables` -/

theorem takeWhile_boundary {p : Char → Bool} (v : List Char) (x : Char)
    (rest : List Char) (hv : ∀ c ∈ v, p c = true) (hx : p x = false) :
    (v ++ x :: rest).takeWhile p = v ∧ (v ++ x :: rest).dropWhile p = x :: rest := by
  induction v with
  | nil => simp [List.takeWhile_cons, List.dropWhile_cons, hx]
  | cons a as ih =>
    have ha : p a = true := hv a (by simp)
    have ih2 := ih (fun c hc => hv c (by simp [hc]))
    simp [List.takeWhile_cons, List.dropWhile_cons, ha, ih2.1, ih2.2]

theorem scan_skip :
    ∀ (id pre tl r : List Char), (∀ c ∈ id, HtmlGen.isWordChar c = true) →
      id ++ '}' :: tl = pre ++ '$' :: r →
      ∃ pre2, pre = id ++ '}' :: pre2 ∧ tl = pre2 ++ '$' :: r := by
  intro id
  induction id with
  | nil =>
    intro pre tl r _ heq
    cases pre with
    | nil => simp at heq
    | cons q pre2 =>
      simp only [List.nil_append, List.cons_append, List.cons.injEq] at heq
      obtain ⟨hq, htl⟩ := heq
      exact ⟨pre2, by simp [hq.symm], htl⟩
  | cons a as ih =>
    intro pre tl r hw heq
    cases pre with
    | nil =>
      simp only [List.cons_append, List.nil_append, List.cons.injEq] at heq
      have := hw a (by simp)
      rw [heq.1] at this
      simp [HtmlGen.isWordChar] at this
    | cons q pre2 =>
      simp only [List.cons_append, List.cons.injEq] at heq
      obtain ⟨rfl, heq2⟩ := heq
      obtain ⟨pre3, hpre, htl⟩ := ih pre2 tl r (fun c hc => hw c (by simp [hc])) heq2
      exact ⟨pre3, by simp [hpre], htl⟩

theorem findVars_cons2 (c c2 : Char) (rest2 : List Char) :
    HtmlGen.findVars (c :: c2 :: rest2) =
      if c == '$' then
        if c2 == '{' then
          if (rest2.takeWhile HtmlGen.isWordChar).isEmpty then
            HtmlGen.findVars (c2 :: rest2)
          else if (rest2.dropWhile HtmlGen.isWordChar).head? == some '}' then
            String.mk (rest2.takeWhile HtmlGen.isWordChar) ::
              HtmlGen.findVars (rest2.dropWhile HtmlGen.isWordChar).tail
          else HtmlGen.findVars (c2 :: rest2)
        else HtmlGen.findVars (c2 :: rest2)
      else HtmlGen.findVars (c2 :: rest2) := by
  rw [HtmlGen.findVars.eq_def]

theorem findVars_sound :
    ∀ (cs : List Char) (v : String),
      v ∈ HtmlGen.findVars cs → HtmlGen.occursAsPlaceholder cs v := by
  have key : ∀ (n : Nat) (cs : List Char), cs.length ≤ n →
      ∀ v, v ∈ HtmlGen.findVars cs → HtmlGen.occursAsPlaceholder cs v := by
    intro n
    induction n with
    | zero =>
      intro cs hlen v hv
      have hnil : cs = [] := by
        cases cs
        · rfl
        · simp at hlen
      subst hnil
      simp [HtmlGen.findVars] at hv
    | succ n ih =>
      intro cs hlen v hv
      rcases cs with _ | ⟨c, _ | ⟨c2, rest2⟩⟩
      · simp [HtmlGen.findVars] at hv
      · simp [HtmlGen.findVars] at hv
      · simp only [List.length_cons] at hlen
        have lift : v ∈ HtmlGen.findVars (c2 :: rest2) →
            HtmlGen.occursAsPlaceholder (c :: c2 :: rest2) v := by
          intro hv2
          obtain ⟨hne, hw, pre, post, hd⟩ :=
            ih (c2 :: rest2) (by simp; omega) v hv2
          exact ⟨hne, hw, c :: pre, post, by simp [hd]⟩
        rw [findVars_cons2] at hv
        by_cases hc : (c == '$') = true
        · rw [if_pos hc] at hv
          by_cases hb : (c2 == '{') = true
          · rw [if_pos hb] at hv
            by_cases hE : (rest2.takeWhile HtmlGen.isWordChar).isEmpty = true
            · rw [if_pos hE] at hv
              exact lift hv
            · rw [if_neg hE] at hv
              by_cases hH :
                  ((rest2.dropWhile HtmlGen.isWordChar).head? == some '}') = true
              · rw [if_pos hH] at hv
                have hc2 : c = '$' := by simpa using hc
                have hb2 : c2 = '{' := by simpa using hb
                subst hc2
                subst hb2
                have hdw : rest2.dropWhile HtmlGen.isWordChar =
                    '}' :: (rest2.dropWhile HtmlGen.isWordChar).tail := by
                  rcases hdd : rest2.dropWhile HtmlGen.isWordChar with _ | ⟨x, xs⟩
                  · rw [hdd] at hH
                    simp at hH
                  · rw [hdd] at hH
                    simp at hH
                    rw [hH]
                    simp
                have hrest : rest2 = rest2.takeWhile HtmlGen.isWordChar ++
                    '}' :: (rest2.dropWhile HtmlGen.isWordChar).tail := by
                  conv_lhs => rw [← List.takeWhile_append_dropWhile
                    HtmlGen.isWordChar rest2]
                  exact congrArg (fun l => rest2.takeWhile HtmlGen.isWordChar ++ l) hdw
                rcases List.mem_cons.mp hv with rfl | hvtail
                · refine ⟨?_, ?_, [], (rest2.dropWhile HtmlGen.isWordChar).tail, ?_⟩
                  · simpa [List.isEmpty_iff] using hE
                  · intro ch hch
                    exact List.mem_takeWhile_imp hch
                  · simp only [List.nil_append, List.cons.injEq, true_and]
                    exact hrest
                · have hlt : (rest2.dropWhile HtmlGen.isWordChar).tail.length ≤ n := by
                    have h1 : (rest2.dropWhile HtmlGen.isWordChar).length ≤
                        rest2.length := (List.dropWhile_sublist _).length_le
                    have h2 := List.length_tail (rest2.dropWhile HtmlGen.isWordChar)
                    omega
                  obtain ⟨hne, hw, pre, post, hd⟩ := ih _ hlt v hvtail
                  refine ⟨hne, hw,
                    '$' :: '{' :: (rest2.takeWhile HtmlGen.isWordChar ++ '}' :: pre),
                    post, ?_⟩
                  conv_lhs => rw [hrest]
                  conv_lhs => rw [hd]
                  simp [List.cons_append, List.append_assoc]
              · rw [if_neg hH] at hv
                exact lift hv
          · rw [if_neg hb] at hv
            exact lift hv
        · rw [if_neg hc] at hv
          exact lift hv
  intro cs
  exact key cs.length cs le_rfl

theorem findVars_complete :
    ∀ (cs : List Char) (v : String),
      HtmlGen.occursAsPlaceholder cs v → v ∈ HtmlGen.findVars cs := by
  have key : ∀ (n : Nat) (cs : List Char), cs.length ≤ n →
      ∀ v, HtmlGen.occursAsPlaceholder cs v → v ∈ HtmlGen.findVars cs := by
    intro n
    induction n with
    | zero =>
      intro cs hlen v hocc
      obtain ⟨hne, hw, pre, post, hd⟩ := hocc
      have : cs = [] := by
        cases cs
        · rfl
        · simp at hlen
      subst this
      exact absurd hd.symm (by simp)
    | succ n ih =>
      intro cs hlen v hocc
      obtain ⟨hne, hw, pre, post, hd⟩ := hocc
      subst hd
      obtain ⟨hT, hD⟩ := takeWhile_boundary v.data '}' post hw (by decide)
      have hEf : v.data.isEmpty = false := by
        rcases h : v.data.isEmpty
        · rfl
        · exact absurd (List.isEmpty_iff.mp h) hne
      cases pre with
      | nil =>
        simp only [List.nil_append] at hlen ⊢
        rw [findVars_cons2]
        rw [show (('$' : Char) == '$') = true by decide,
          show (('{' : Char) == '{') = true by decide]
        simp only [if_true]
        rw [hT, hD, hEf]
        simp only [Bool.false_eq_true, if_false, List.head?_cons, List.tail_cons]
        rw [show (some '}' == some '}') = true by decide]
        simp only [if_true]
        have hveq : String.mk v.data = v := rfl
        rw [hveq]
        exact List.mem_cons_self v _
      | cons p pre2 =>
        simp only [List.cons_append, List.length_cons] at hlen ⊢
        rcases pre2 with _ | ⟨p2, pre3⟩
        · simp only [List.nil_append] at hlen ⊢
          rw [findVars_cons2]
          have hrec : v ∈ HtmlGen.findVars ('$' :: '{' :: (v.data ++ '}' :: post)) := by
            apply ih _ (by simp at hlen ⊢; omega) v
            exact ⟨hne, hw, [], post, by simp⟩
          by_cases hp : (p == '$') = true
          · rw [if_pos hp]
            rw [show (('$' : Char) == '{') = false by decide]
            simp only [Bool.false_eq_true, if_false]
            exact hrec
          · rw [if_neg hp]
            exact hrec
        · simp only [List.cons_append, List.length_cons] at hlen ⊢
          rw [findVars_cons2]
          have hrec : v ∈ HtmlGen.findVars
              (p2 :: (pre3 ++ '$' :: '{' :: (v.data ++ '}' :: post))) := by
            apply ih _ (by simp at hlen ⊢ <;> omega) v
            exact ⟨hne, hw, p2 :: pre3, post, by simp⟩
          by_cases hp : (p == '$') = true
          · rw [if_pos hp]
            by_cases hp2 : (p2 == '{') = true
            · rw [if_pos hp2]
              by_cases hE : ((pre3 ++ '$' :: '{' :: (v.data ++ '}' :: post)).takeWhile
                  HtmlGen.isWordChar).isEmpty = true
              · rw [if_pos hE]
                exact hrec
              · rw [if_neg hE]
                by_cases hH : (((pre3 ++ '$' :: '{' :: (v.data ++ '}' :: post)).dropWhile
                    HtmlGen.isWordChar).head? == some '}') = true
                · rw [if_pos hH]
                  have hdw : (pre3 ++ '$' :: '{' :: (v.data ++ '}' :: post)).dropWhile
                      HtmlGen.isWordChar =
                      '}' :: ((pre3 ++ '$' :: '{' :: (v.data ++ '}' :: post)).dropWhile
                        HtmlGen.isWordChar).tail := by
                    rcases hdd : (pre3 ++ '$' :: '{' :: (v.data ++ '}' :: post)).dropWhile
                        HtmlGen.isWordChar with _ | ⟨x, xs⟩
                    · rw [hdd] at hH
                      simp at hH
                    · rw [hdd] at hH
                      simp at hH
                      rw [hH]
                      simp
                  have hsplit : (pre3 ++ '$' :: '{' :: (v.data ++ '}' :: post)).takeWhile
                      HtmlGen.isWordChar ++
                      '}' :: ((pre3 ++ '$' :: '{' :: (v.data ++ '}' :: post)).dropWhile
                        HtmlGen.isWordChar).tail =
                      pre3 ++ '$' :: ('{' :: (v.data ++ '}' :: post)) := by
                    conv_lhs => rw [← hdw]
                    rw [List.takeWhile_append_dropWhile]
                  obtain ⟨pre4, hpre4, htl⟩ := scan_skip
                    ((pre3 ++ '$' :: '{' :: (v.data ++ '}' :: post)).takeWhile
                      HtmlGen.isWordChar) pre3
                    ((pre3 ++ '$' :: '{' :: (v.data ++ '}' :: post)).dropWhile
                      HtmlGen.isWordChar).tail
                    ('{' :: (v.data ++ '}' :: post))
                    (fun ch hch => List.mem_takeWhile_imp hch) hsplit
                  have hlt : ((pre3 ++ '$' :: '{' :: (v.data ++ '}' :: post)).dropWhile
                      HtmlGen.isWordChar).tail.length ≤ n := by
                    have h1 : ((pre3 ++ '$' :: '{' :: (v.data ++ '}' :: post)).dropWhile
                        HtmlGen.isWordChar).length ≤
                        (pre3 ++ '$' :: '{' :: (v.data ++ '}' :: post)).length :=
                      (List.dropWhile_sublist _).length_le
                    have h2 := List.length_tail
                      ((pre3 ++ '$' :: '{' :: (v.data ++ '}' :: post)).dropWhile
                        HtmlGen.isWordChar)
                    have h3 : (pre3 ++ '$' :: '{' :: (v.data ++ '}' :: post)).length =
                        pre3.length + (v.data.length + post.length + 3) := by
                      simp [List.length_append]
                      omega
                    omega
                  have hocc2 : HtmlGen.occursAsPlaceholder
                      ((pre3 ++ '$' :: '{' :: (v.data ++ '}' :: post)).dropWhile
                        HtmlGen.isWordChar).tail v :=
                    ⟨hne, hw, pre4, post, by rw [htl]⟩
                  exact List.mem_cons_of_mem _ (ih _ hlt v hocc2)
                · rw [if_neg hH]
                  exact hrec
            · rw [if_neg hp2]
              exact hrec
          · rw [if_neg hp]
            exact hrec
  intro cs
  exact key cs.length cs le_rfl

/-- C2: `get_template_variables` returns exactly the identifiers that
occur in the template text as `$\x7bidentifier\x7d` (identifier over
`[a-zA-Z0-9_]+`), with the system keys removed; the result is sorted in
Python's string order, duplicate-free, and never contains a system key. -/
theorem get_template_variables_spec (content : String) :
    (∀ v, v ∈ HtmlGen.get_template_variables content ↔
      (HtmlGen.occursAsPlaceholder content.data v ∧
        v ∉ HtmlGen.SYSTEM_VARIABLES)) ∧
    (HtmlGen.get_template_variables content).Pairwise
      (fun a b => pyStrLe a b = true) ∧
    (HtmlGen.get_template_variables content).Nodup ∧
    (∀ s ∈ HtmlGen.SYSTEM_VARIABLES,
      s ∉ HtmlGen.get_template_variables content) := by
  have hmem : ∀ v, v ∈ HtmlGen.get_template_variables content ↔
      v ∈ HtmlGen.findVars content.data ∧ v ∉ HtmlGen.SYSTEM_VARIABLES := by
    intro v
    unfold HtmlGen.get_template_variables
    rw [(List.mergeSort_perm _ _).mem_iff, List.mem_filter, List.mem_dedup]
    simp
  refine ⟨?_, ?_, ?_, ?_⟩
  · intro v
    rw [hmem v]
    constructor
    · rintro ⟨h1, h2⟩
      exact ⟨findVars_sound _ _ h1, h2⟩
    · rintro ⟨h1, h2⟩
      exact ⟨findVars_complete _ _ h1, h2⟩
  · unfold HtmlGen.get_template_variables
    exact List.sorted_mergeSort
      (fun a b c hab hbc => charListLe_trans a.data b.data c.data hab hbc)
      (fun a b => charListLe_total a.data b.data) _
  · unfold HtmlGen.get_template_variables
    exact (List.mergeSort_perm _ _).nodup_iff.mpr
      ((List.nodup_dedup _).filter _)
  · intro s hs hmem2
    exact ((hmem s).mp hmem2).2 hs

/-- C2 witness: on a template with one AI variable and one system
variable, the system key is not in the result. -/
theorem get_template_variables_spec_witness :
    "timestamp" ∉
      HtmlGen.get_template_variables "$\x7bname\x7d$\x7btimestamp\x7d" :=
  (get_template_variables_spec "$\x7bname\x7d$\x7btimestamp\x7d").2.2.2
    "timestamp" (by decide)

/-! ## C3 — src/html_generator.py, `generate_html_content` -/

theorem safeSubstitute_nil (ctx : String → Option String) :
    HtmlGen.safeSubstitute ctx [] = [] := by
  rw [HtmlGen.safeSubstitute.eq_def]

theorem safeSubstitute_one (ctx : String → Option String) (c : Char) :
    HtmlGen.safeSubstitute ctx [c] = if c == '$' then ['$'] else [c] := by
  rw [HtmlGen.safeSubstitute.eq_def]

theorem safeSubstitute_cons2 (ctx : String → Option String) (c c2 : Char)
    (rest2 : List Char) :
    HtmlGen.safeSubstitute ctx (c :: c2 :: rest2) =
      if c == '$' then
        if c2 == '$' then '$' :: HtmlGen.safeSubstitute ctx rest2
        else if c2 == '{' then
          if HtmlGen.validId (rest2.takeWhile HtmlGen.isIdCont) &&
              (rest2.dropWhile HtmlGen.isIdCont).head? == some '}' then
            match ctx (String.mk (rest2.takeWhile HtmlGen.isIdCont)) with
            | some v =>
              v.data ++ HtmlGen.safeSubstitute ctx
                (rest2.dropWhile HtmlGen.isIdCont).tail
            | none =>
              '$' :: '{' ::
                (rest2.takeWhile HtmlGen.isIdCont ++
                  '}' :: HtmlGen.safeSubstitute ctx
                    (rest2.dropWhile HtmlGen.isIdCont).tail)
          else '$' :: HtmlGen.safeSubstitute ctx (c2 :: rest2)
        else if HtmlGen.isIdStart c2 then
          match ctx (String.mk ((c2 :: rest2).takeWhile HtmlGen.isIdCont)) with
          | some v =>
            v.data ++ HtmlGen.safeSubstitute ctx
              ((c2 :: rest2).dropWhile HtmlGen.isIdCont)
          | none =>
            '$' :: ((c2 :: rest2).takeWhile HtmlGen.isIdCont ++
              HtmlGen.safeSubstitute ctx ((c2 :: rest2).dropWhile HtmlGen.isIdCont))
        else '$' :: HtmlGen.safeSubstitute ctx (c2 :: rest2)
      else c :: HtmlGen.safeSubstitute ctx (c2 :: rest2) := by
  rw [HtmlGen.safeSubstitute.eq_def]

theorem validId_chars (id : List Char) (h : HtmlGen.validId id = true) :
    ∀ c ∈ id, HtmlGen.isIdCont c = true := by
  cases id with
  | nil => simp [HtmlGen.validId] at h
  | cons c rest =>
    simp only [HtmlGen.validId, Bool.and_eq_true, List.all_eq_true] at h
    intro ch hch
    rcases List.mem_cons.mp hch with rfl | hm
    · have := h.1
      simp only [HtmlGen.isIdStart, HtmlGen.isIdCont, Bool.or_eq_true] at this ⊢
      rcases this with h' | h'
      · refine Or.inl ?_
        have hdef : ch.isAlphanum = (ch.isAlpha || ch.isDigit) := rfl
        rw [hdef, h']
        rfl
      · exact Or.inr h'
    · exact h.2 ch hm

theorem safeSubstitute_prepend (ctx : String → Option String) :
    ∀ (pre rest : List Char), '$' ∉ pre →
      HtmlGen.safeSubstitute ctx (pre ++ rest) =
        pre ++ HtmlGen.safeSubstitute ctx rest := by
  intro pre
  induction pre with
  | nil => intro rest _; simp
  | cons c pre2 ih =>
    intro rest hpre
    have hc : c ≠ '$' := fun h => hpre (h ▸ List.mem_cons_self c pre2)
    have hbc : (c == '$') = false := by simpa using hc
    have hpre2 : '$' ∉ pre2 := fun h => hpre (List.mem_cons_of_mem c h)
    rw [List.cons_append]
    cases hpp : pre2 ++ rest with
    | nil =>
      obtain ⟨h1, h2⟩ := List.append_eq_nil.mp hpp
      subst h1
      subst h2
      simp [safeSubstitute_nil, safeSubstitute_one, hbc]
    | cons d tl =>
      have step1 : HtmlGen.safeSubstitute ctx (c :: d :: tl) =
          c :: HtmlGen.safeSubstitute ctx (d :: tl) := by
        rw [safeSubstitute_cons2, if_neg (by simp [hbc])]
      rw [step1, ← hpp, ih rest hpre2]
      simp

theorem safeSubstitute_braced (ctx : String → Option String) (id post : List Char)
    (hid : HtmlGen.validId id = true) :
    HtmlGen.safeSubstitute ctx ('$' :: '{' :: (id ++ '}' :: post)) =
      match ctx (String.mk id) with
      | some v => v.data ++ HtmlGen.safeSubstitute ctx post
      | none => '$' :: '{' :: (id ++ '}' :: HtmlGen.safeSubstitute ctx post) := by
  obtain ⟨hT, hD⟩ := takeWhile_boundary id '}' post (validId_chars id hid) (by decide)
  rw [safeSubstitute_cons2]
  rw [show (('$' : Char) == '$') = true by decide]
  simp only [if_true]
  rw [show (('{' : Char) == '$') = false by decide]
  simp only [Bool.false_eq_true, if_false]
  rw [show (('{' : Char) == '{') = true by decide]
  simp only [if_true]
  rw [hT, hD, hid]
  simp only [List.head?_cons, List.tail_cons]
  rw [show ((some '}' == some '}') : Bool) = true by decide]
  simp only [Bool.and_self, if_true]

/-- C3: `generate_html_content` on a readable template is total by
construction (it is a function in this development, mirroring
`safe_substitute`, which never raises); a braced placeholder whose key
is missing from the context is copied to the output verbatim, a braced
placeholder whose key is bound is replaced by the bound (formatted)
value, and a key appearing in `company_info` is bound in the context to
`_format_value` of its (last) value. -/
theorem generate_html_content_safe (sys : HtmlGen.SysVals)
    (info : List (String × JValue)) (pre id post : List Char)
    (hpre : '$' ∉ pre) (hid : HtmlGen.validId id = true) :
    (HtmlGen.buildContext sys info (String.mk id) = none →
      HtmlGen.generate_html_content sys
          (String.mk (pre ++ '$' :: '{' :: (id ++ '}' :: post))) info =
        String.mk (pre ++ '$' :: '{' ::
          (id ++ '}' ::
            HtmlGen.safeSubstitute (HtmlGen.buildContext sys info) post))) ∧
    (∀ v, HtmlGen.buildContext sys info (String.mk id) = some v →
      HtmlGen.generate_html_content sys
          (String.mk (pre ++ '$' :: '{' :: (id ++ '}' :: post))) info =
        String.mk (pre ++
          (v.data ++
            HtmlGen.safeSubstitute (HtmlGen.buildContext sys info) post))) ∧
    (∀ kv, (info.filter (fun e => e.1 == String.mk id)).getLast? = some kv →
      HtmlGen.buildContext sys info (String.mk id) =
        some (HtmlGen.formatValue kv.2)) := by
  refine ⟨?_, ?_, ?_⟩
  · intro h
    unfold HtmlGen.generate_html_content
    rw [show (String.mk (pre ++ '$' :: '{' :: (id ++ '}' :: post))).data =
      pre ++ '$' :: '{' :: (id ++ '}' :: post) from rfl]
    rw [safeSubstitute_prepend _ _ _ hpre, safeSubstitute_braced _ _ _ hid, h]
  · intro v h
    unfold HtmlGen.generate_html_content
    rw [show (String.mk (pre ++ '$' :: '{' :: (id ++ '}' :: post))).data =
      pre ++ '$' :: '{' :: (id ++ '}' :: post) from rfl]
    rw [safeSubstitute_prepend _ _ _ hpre, safeSubstitute_braced _ _ _ hid, h]
  · intro kv h
    unfold HtmlGen.buildContext
    rw [h]

/-- C3 witness: a one-placeholder template with the key bound in
`company_info`; the placeholder is replaced by the formatted value. -/
theorem generate_html_content_safe_witness :
    HtmlGen.generate_html_content ⟨"2024-01-01 00:00", "OP-D-V-0000"⟩
        "$\x7bname\x7d" [("name", JValue.str "Acme")] = "Acme" := by
  have h := (generate_html_content_safe ⟨"2024-01-01 00:00", "OP-D-V-0000"⟩
      [("name", JValue.str "Acme")] [] "name".data [] (by decide) (by decide)).2.1
    "Acme"
    (by simp [HtmlGen.buildContext, HtmlGen.formatValue, pyStr])
  rw [show String.mk (([] : List Char) ++ '$' :: '{' :: ("name".data ++ '}' :: [])) =
    "$\x7bname\x7d" from by decide] at h
  rw [h, safeSubstitute_nil]
  decide

/-! ## C5 and C6 — src/app_ui.py, `PipelineWorker.run` -/

theorem phase1_phase_eq (env : Worker.Env) (total : Nat) :
    ∀ (cs : List String) (k s : Nat) (e : Worker.Ev),
      e ∈ (Worker.phase1 env total cs k s).1 → e.phase = 1 := by
  intro cs
  induction cs with
  | nil =>
    intro k s e he
    simp [Worker.phase1] at he
  | cons c cs2 ih =>
    intro k s e he
    simp only [Worker.phase1] at he
    by_cases hr : env.running k = true
    · rw [if_pos hr] at he
      by_cases hE : cs2.isEmpty = true
      · rw [if_pos hE] at he
        rcases List.mem_append.mp he with h | h
        · simp only [List.mem_cons, List.not_mem_nil, or_false] at h
          rcases h with rfl | rfl <;> rfl
        · exact ih _ _ e h
      · rw [if_neg hE] at he
        by_cases hC : Worker.cooldownOk env (k + 1) = true
        · rw [if_pos hC] at he
          rcases List.mem_append.mp he with h | h
          · simp only [List.mem_cons, List.not_mem_nil, or_false] at h
            rcases h with rfl | rfl <;> rfl
          · exact ih _ _ e h
        · rw [if_neg hC] at he
          simp only [List.mem_cons, List.not_mem_nil, or_false] at he
          rcases he with rfl | rfl <;> rfl
    · rw [if_neg hr] at he
      simp at he

theorem fileLoop_phase_eq (env : Worker.Env) (p total : Nat) :
    ∀ (fs : List String) (k s : Nat) (e : Worker.Ev),
      e ∈ (Worker.fileLoop env p total fs k s).1 → e.phase = p := by
  intro fs
  induction fs with
  | nil =>
    intro k s e he
    simp [Worker.fileLoop] at he
  | cons f fs2 ih =>
    intro k s e he
    simp only [Worker.fileLoop] at he
    by_cases hr : env.running k = true
    · rw [if_pos hr] at he
      simp only [List.mem_cons] at he
      rcases he with rfl | rfl | h
      · rfl
      · rfl
      · exact ih _ _ e h
    · rw [if_neg hr] at he
      simp at he

theorem pairwise_phase_const {tr : List Worker.Ev} {p : Nat}
    (h : ∀ e ∈ tr, Worker.Ev.phase e = p) :
    tr.Pairwise (fun a b => Worker.Ev.phase a ≤ Worker.Ev.phase b) := by
  induction tr with
  | nil => exact List.Pairwise.nil
  | cons e tr2 ih =>
    refine List.Pairwise.cons ?_ (ih (fun x hx => h x (List.mem_cons_of_mem e hx)))
    intro b hb
    rw [h e (List.mem_cons_self e tr2), h b (List.mem_cons_of_mem e hb)]

theorem itemsOf_eq_nil {tr : List Worker.Ev} {p q : Nat}
    (h : ∀ e ∈ tr, Worker.Ev.phase e = p) (hq : q ≠ p) :
    Worker.itemsOf q tr = [] := by
  rw [Worker.itemsOf, List.filterMap_eq_nil]
  intro e he
  cases e with
  | item a n =>
    have ha := h _ he
    simp only [Worker.Ev.phase] at ha
    subst ha
    have hq2 : a ≠ q := fun hh => hq hh.symm
    simp [hq2]
  | banner a => rfl
  | progress a v => rfl
  | errorEmit a => rfl
  | finishedEmit => rfl

theorem itemsOf_append (p : Nat) (a b : List Worker.Ev) :
    Worker.itemsOf p (a ++ b) = Worker.itemsOf p a ++ Worker.itemsOf p b := by
  simp [Worker.itemsOf, List.filterMap_append]

theorem itemsOf_cons_item (p q : Nat) (n : String) (tr : List Worker.Ev) :
    Worker.itemsOf p (Worker.Ev.item q n :: tr) =
      if q == p then n :: Worker.itemsOf p tr else Worker.itemsOf p tr := by
  by_cases h : q = p <;> simp [Worker.itemsOf, List.filterMap_cons, h]

theorem itemsOf_cons_progress (p q v : Nat) (tr : List Worker.Ev) :
    Worker.itemsOf p (Worker.Ev.progress q v :: tr) = Worker.itemsOf p tr := rfl

theorem phase1_items (env : Worker.Env) (total : Nat) :
    ∀ (cs : List String) (k s : Nat),
      (Worker.phase1 env total cs k s).2.2.2 = true →
        Worker.itemsOf 1 (Worker.phase1 env total cs k s).1 = cs := by
  intro cs
  induction cs with
  | nil =>
    intro k s _
    simp [Worker.phase1, Worker.itemsOf]
  | cons c cs2 ih =>
    intro k s hdone
    simp only [Worker.phase1] at hdone ⊢
    by_cases hr : env.running k = true
    · rw [if_pos hr] at hdone ⊢
      by_cases hE : cs2.isEmpty = true
      · rw [if_pos hE] at hdone ⊢
        have hdone2 : (Worker.phase1 env total cs2 (k + 1) (s + 1)).2.2.2 = true := by
          simpa using hdone
        rw [itemsOf_append, ih (k + 1) (s + 1) hdone2]
        rfl
      · rw [if_neg hE] at hdone ⊢
        by_cases hC : Worker.cooldownOk env (k + 1) = true
        · rw [if_pos hC] at hdone ⊢
          have hdone2 : (Worker.phase1 env total cs2 (k + 11) (s + 1)).2.2.2 = true := by
            simpa using hdone
          rw [itemsOf_append, ih (k + 11) (s + 1) hdone2]
          rfl
        · rw [if_neg hC] at hdone
          simp at hdone
    · rw [if_neg hr] at hdone
      simp at hdone

theorem fileLoop_items (env : Worker.Env) (p total : Nat) :
    ∀ (fs : List String) (k s : Nat),
      (Worker.fileLoop env p total fs k s).2.2.2 = true →
        Worker.itemsOf p (Worker.fileLoop env p total fs k s).1 = fs := by
  intro fs
  induction fs with
  | nil =>
    intro k s _
    simp [Worker.fileLoop, Worker.itemsOf]
  | cons f fs2 ih =>
    intro k s hdone
    simp only [Worker.fileLoop] at hdone ⊢
    by_cases hr : env.running k = true
    · rw [if_pos hr] at hdone ⊢
      have hdone2 : (Worker.fileLoop env p total fs2 (k + 1) (s + 1)).2.2.2 = true := by
        simpa using hdone
      rw [itemsOf_cons_item, itemsOf_cons_progress, ih (k + 1) (s + 1) hdone2]
      simp
    · rw [if_neg hr] at hdone
      simp at hdone

theorem itemsOf_cons_banner (p q : Nat) (tr : List Worker.Ev) :
    Worker.itemsOf p (Worker.Ev.banner q :: tr) = Worker.itemsOf p tr := rfl

theorem itemsOf_cons_error (p q : Nat) (tr : List Worker.Ev) :
    Worker.itemsOf p (Worker.Ev.errorEmit q :: tr) = Worker.itemsOf p tr := rfl

theorem itemsOf_cons_finished (p : Nat) (tr : List Worker.Ev) :
    Worker.itemsOf p (Worker.Ev.finishedEmit :: tr) = Worker.itemsOf p tr := rfl

theorem itemsOf_nil (p : Nat) : Worker.itemsOf p [] = [] := rfl

theorem pairwise_phase_app {tr1 tr2 : List Worker.Ev} {p : Nat}
    (h1 : tr1.Pairwise (fun a b => Worker.Ev.phase a ≤ Worker.Ev.phase b))
    (h2 : tr2.Pairwise (fun a b => Worker.Ev.phase a ≤ Worker.Ev.phase b))
    (hu : ∀ e ∈ tr1, Worker.Ev.phase e ≤ p)
    (hl : ∀ e ∈ tr2, p ≤ Worker.Ev.phase e) :
    (tr1 ++ tr2).Pairwise (fun a b => Worker.Ev.phase a ≤ Worker.Ev.phase b) :=
  List.pairwise_append.mpr
    ⟨h1, h2, fun a ha b hb => le_trans (hu a ha) (hl b hb)⟩

theorem all_ev_append {P : Worker.Ev → Prop} {l1 l2 : List Worker.Ev}
    (h1 : ∀ e ∈ l1, P e) (h2 : ∀ e ∈ l2, P e) : ∀ e ∈ l1 ++ l2, P e :=
  fun e he => (List.mem_append.mp he).elim (h1 e) (h2 e)

theorem all_ev_cons {P : Worker.Ev → Prop} {a : Worker.Ev} {l : List Worker.Ev}
    (ha : P a) (h : ∀ e ∈ l, P e) : ∀ e ∈ a :: l, P e := by
  intro e he
  rcases List.mem_cons.mp he with rfl | he2
  · exact ha
  · exact h e he2

theorem all_ev_nil {P : Worker.Ev → Prop} : ∀ e ∈ ([] : List Worker.Ev), P e := by
  intro e he
  simp at he

/-- C5: in every worker run the phase tags of the emitted events are
nondecreasing (no event of a later phase precedes one of an earlier
phase), and in a completed run phase 1 handles exactly the company list
and phases 2 and 3 each handle exactly the discovered data files — so no
later phase begins before the previous one has handled all its items. -/
theorem run_phases_sequential (env : Worker.Env) :
    ((Worker.run env).1.map Worker.Ev.phase).Pairwise (· ≤ ·) ∧
    ((Worker.run env).2 = true →
      Worker.itemsOf 1 (Worker.run env).1 = env.companies ∧
      Worker.itemsOf 2 (Worker.run env).1 = env.dataFiles ∧
      Worker.itemsOf 3 (Worker.run env).1 = env.dataFiles) := by
  rw [List.pairwise_map]
  have hA1 : ([Worker.Ev.banner 0, Worker.Ev.banner 1]).Pairwise
      (fun a b => Worker.Ev.phase a ≤ Worker.Ev.phase b) := by
    simp [List.pairwise_cons, Worker.Ev.phase]
  have hA1u : ∀ e ∈ [Worker.Ev.banner 0, Worker.Ev.banner 1],
      Worker.Ev.phase e ≤ 1 :=
    all_ev_cons (by simp [Worker.Ev.phase])
      (all_ev_cons (by simp [Worker.Ev.phase]) all_ev_nil)
  by_cases ht : env.templateExists = true
  case neg =>
    have htr : Worker.run env =
        ([Worker.Ev.banner 0, Worker.Ev.errorEmit 0], false) := by
      simp [Worker.run, ht]
    rw [htr]
    constructor
    · simp [List.pairwise_cons, Worker.Ev.phase]
    · intro hdone
      simp at hdone
  case pos =>
  by_cases ha : env.apiKeyOk = true
  case neg =>
    have htr : Worker.run env =
        ([Worker.Ev.banner 0, Worker.Ev.banner 1, Worker.Ev.errorEmit 1], false) := by
      simp [Worker.run, ht, ha]
    rw [htr]
    constructor
    · simp [List.pairwise_cons, Worker.Ev.phase]
    · intro hdone
      simp at hdone
  case pos =>
  have hp1 := phase1_phase_eq env (env.companies.length * 3 + 1) env.companies 0 0
  have hB1 : (([Worker.Ev.banner 0, Worker.Ev.banner 1] : List Worker.Ev) ++
      (Worker.phase1 env (env.companies.length * 3 + 1)
        env.companies 0 0).1).Pairwise
      (fun a b => Worker.Ev.phase a ≤ Worker.Ev.phase b) :=
    pairwise_phase_app hA1 (pairwise_phase_const hp1) hA1u
      (fun e he => le_of_eq (hp1 e he).symm)
  have hB1u : ∀ e ∈ ([Worker.Ev.banner 0, Worker.Ev.banner 1] : List Worker.Ev) ++
      (Worker.phase1 env (env.companies.length * 3 + 1) env.companies 0 0).1,
      Worker.Ev.phase e ≤ 1 :=
    all_ev_append hA1u (fun e he => le_of_eq (hp1 e he))
  by_cases h1 : (Worker.phase1 env (env.companies.length * 3 + 1)
      env.companies 0 0).2.2.2 = true
  case neg =>
    have htr : Worker.run env = ([Worker.Ev.banner 0, Worker.Ev.banner 1] ++
        (Worker.phase1 env (env.companies.length * 3 + 1) env.companies 0 0).1,
        false) := by
      simp [Worker.run, ht, ha, h1]
    rw [htr]
    exact ⟨hB1, fun hdone => by simp at hdone⟩
  case pos =>
  have hp2 := fileLoop_phase_eq env 2 (env.companies.length * 3 + 1) env.dataFiles
    (Worker.phase1 env (env.companies.length * 3 + 1) env.companies 0 0).2.1
    (Worker.phase1 env (env.companies.length * 3 + 1) env.companies 0 0).2.2.1
  have h2all : ∀ e ∈ Worker.Ev.banner 2 ::
      (Worker.fileLoop env 2 (env.companies.length * 3 + 1) env.dataFiles
        (Worker.phase1 env (env.companies.length * 3 + 1) env.companies 0 0).2.1
        (Worker.phase1 env (env.companies.length * 3 + 1)
          env.companies 0 0).2.2.1).1,
      Worker.Ev.phase e = 2 :=
    all_ev_cons rfl hp2
  have hB2 : ((([Worker.Ev.banner 0, Worker.Ev.banner 1] : List Worker.Ev) ++
      (Worker.phase1 env (env.companies.length * 3 + 1) env.companies 0 0).1) ++
      (Worker.Ev.banner 2 ::
        (Worker.fileLoop env 2 (env.companies.length * 3 + 1) env.dataFiles
          (Worker.phase1 env (env.companies.length * 3 + 1) env.companies 0 0).2.1
          (Worker.phase1 env (env.companies.length * 3 + 1)
            env.companies 0 0).2.2.1).1)).Pairwise
      (fun a b => Worker.Ev.phase a ≤ Worker.Ev.phase b) :=
    pairwise_phase_app hB1 (pairwise_phase_const h2all)
      (fun e he => le_trans (hB1u e he) (by omega))
      (fun e he => le_of_eq (h2all e he).symm)
  have hB2u : ∀ e ∈ (([Worker.Ev.banner 0, Worker.Ev.banner 1] : List Worker.Ev) ++
      (Worker.phase1 env (env.companies.length * 3 + 1) env.companies 0 0).1) ++
      (Worker.Ev.banner 2 ::
        (Worker.fileLoop env 2 (env.companies.length * 3 + 1) env.dataFiles
          (Worker.phase1 env (env.companies.length * 3 + 1) env.companies 0 0).2.1
          (Worker.phase1 env (env.companies.length * 3 + 1)
            env.companies 0 0).2.2.1).1),
      Worker.Ev.phase e ≤ 2 :=
    all_ev_append (fun e he => le_trans (hB1u e he) (by omega))
      (fun e he => le_of_eq (h2all e he))
  by_cases h2 : (Worker.fileLoop env 2 (env.companies.length * 3 + 1) env.dataFiles
      (Worker.phase1 env (env.companies.length * 3 + 1) env.companies 0 0).2.1
      (Worker.phase1 env (env.companies.length * 3 + 1)
        env.companies 0 0).2.2.1).2.2.2 = true
  case neg =>
    have htr : Worker.run env = ([Worker.Ev.banner 0, Worker.Ev.banner 1] ++
        (Worker.phase1 env (env.companies.length * 3 + 1) env.companies 0 0).1 ++
        (Worker.Ev.banner 2 ::
          (Worker.fileLoop env 2 (env.companies.length * 3 + 1) env.dataFiles
            (Worker.phase1 env (env.companies.length * 3 + 1) env.companies 0 0).2.1
            (Worker.phase1 env (env.companies.length * 3 + 1)
              env.companies 0 0).2.2.1).1),
        false) := by
      simp [Worker.run, ht, ha, h1, h2]
    rw [htr]
    exact ⟨hB2, fun hdone => by simp at hdone⟩
  case pos =>
  have hp3 := fileLoop_phase_eq env 3 (env.companies.length * 3 + 1) env.dataFiles
    (Worker.fileLoop env 2 (env.companies.length * 3 + 1) env.dataFiles
      (Worker.phase1 env (env.companies.length * 3 + 1) env.companies 0 0).2.1
      (Worker.phase1 env (env.companies.length * 3 + 1) env.companies 0 0).2.2.1).2.1
    (Worker.fileLoop env 2 (env.companies.length * 3 + 1) env.dataFiles
      (Worker.phase1 env (env.companies.length * 3 + 1) env.companies 0 0).2.1
      (Worker.phase1 env (env.companies.length * 3 + 1)
        env.companies 0 0).2.2.1).2.2.1
  have h3all : ∀ e ∈ Worker.Ev.banner 3 ::
      (Worker.fileLoop env 3 (env.companies.length * 3 + 1) env.dataFiles
        (Worker.fileLoop env 2 (env.companies.length * 3 + 1) env.dataFiles
          (Worker.phase1 env (env.companies.length * 3 + 1) env.companies 0 0).2.1
          (Worker.phase1 env (env.companies.length * 3 + 1)
            env.companies 0 0).2.2.1).2.1
        (Worker.fileLoop env 2 (env.companies.length * 3 + 1) env.dataFiles
          (Worker.phase1 env (env.companies.length * 3 + 1) env.companies 0 0).2.1
          (Worker.phase1 env (env.companies.length * 3 + 1)
            env.companies 0 0).2.2.1).2.2.1).1,
      Worker.Ev.phase e = 3 :=
    all_ev_cons rfl hp3
  have hB3 := pairwise_phase_app hB2 (pairwise_phase_const h3all)
    (fun e he => le_trans (hB2u e he) (by omega))
    (fun e he => le_of_eq (h3all e he).symm)
  have hB3u := all_ev_append
    (fun e (he : e ∈ _) =>
      le_trans (hB2u e he) (show (2 : Nat) ≤ 3 by omega))
    (fun e he => le_of_eq (h3all e he))
  by_cases h3 : (Worker.fileLoop env 3 (env.companies.length * 3 + 1) env.dataFiles
      (Worker.fileLoop env 2 (env.companies.length * 3 + 1) env.dataFiles
        (Worker.phase1 env (env.companies.length * 3 + 1) env.companies 0 0).2.1
        (Worker.phase1 env (env.companies.length * 3 + 1)
          env.companies 0 0).2.2.1).2.1
      (Worker.fileLoop env 2 (env.companies.length * 3 + 1) env.dataFiles
        (Worker.phase1 env (env.companies.length * 3 + 1) env.companies 0 0).2.1
        (Worker.phase1 env (env.companies.length * 3 + 1)
          env.companies 0 0).2.2.1).2.2.1).2.2.2 = true
  case neg =>
    have htr : Worker.run env = ([Worker.Ev.banner 0, Worker.Ev.banner 1] ++
        (Worker.phase1 env (env.companies.length * 3 + 1) env.companies 0 0).1 ++
        (Worker.Ev.banner 2 ::
          (Worker.fileLoop env 2 (env.companies.length * 3 + 1) env.dataFiles
            (Worker.phase1 env (env.companies.length * 3 + 1) env.companies 0 0).2.1
            (Worker.phase1 env (env.companies.length * 3 + 1)
              env.companies 0 0).2.2.1).1) ++
        (Worker.Ev.banner 3 ::
          (Worker.fileLoop env 3 (env.companies.length * 3 + 1) env.dataFiles
            (Worker.fileLoop env 2 (env.companies.length * 3 + 1) env.dataFiles
              (Worker.phase1 env (env.companies.length * 3 + 1) env.companies 0 0).2.1
              (Worker.phase1 env (env.companies.length * 3 + 1)
                env.companies 0 0).2.2.1).2.1
            (Worker.fileLoop env 2 (env.companies.length * 3 + 1) env.dataFiles
              (Worker.phase1 env (env.companies.length * 3 + 1) env.companies 0 0).2.1
              (Worker.phase1 env (env.companies.length * 3 + 1)
                env.companies 0 0).2.2.1).2.2.1).1),
        false) := by
      simp [Worker.run, ht, ha, h1, h2, h3]
    rw [htr]
    exact ⟨hB3, fun hdone => by simp at hdone⟩
  case pos =>
  have h4all : ∀ e ∈ ([Worker.Ev.banner 4, Worker.Ev.progress 4 100,
      Worker.Ev.finishedEmit] : List Worker.Ev), Worker.Ev.phase e = 4 :=
    all_ev_cons rfl (all_ev_cons rfl (all_ev_cons rfl all_ev_nil))
  have hB4 := pairwise_phase_app hB3 (pairwise_phase_const h4all)
    (fun e he => le_trans (hB3u e he) (by omega))
    (fun e he => le_of_eq (h4all e he).symm)
  have htr : Worker.run env = ([Worker.Ev.banner 0, Worker.Ev.banner 1] ++
      (Worker.phase1 env (env.companies.length * 3 + 1) env.companies 0 0).1 ++
      (Worker.Ev.banner 2 ::
        (Worker.fileLoop env 2 (env.companies.length * 3 + 1) env.dataFiles
          (Worker.phase1 env (env.companies.length * 3 + 1) env.companies 0 0).2.1
          (Worker.phase1 env (env.companies.length * 3 + 1)
            env.companies 0 0).2.2.1).1) ++
      (Worker.Ev.banner 3 ::
        (Worker.fileLoop env 3 (env.companies.length * 3 + 1) env.dataFiles
          (Worker.fileLoop env 2 (env.companies.length * 3 + 1) env.dataFiles
            (Worker.phase1 env (env.companies.length * 3 + 1) env.companies 0 0).2.1
            (Worker.phase1 env (env.companies.length * 3 + 1)
              env.companies 0 0).2.2.1).2.1
          (Worker.fileLoop env 2 (env.companies.length * 3 + 1) env.dataFiles
            (Worker.phase1 env (env.companies.length * 3 + 1) env.companies 0 0).2.1
            (Worker.phase1 env (env.companies.length * 3 + 1)
              env.companies 0 0).2.2.1).2.2.1).1) ++
      [Worker.Ev.banner 4, Worker.Ev.progress 4 100, Worker.Ev.finishedEmit],
      true) := by
    simp [Worker.run, ht, ha, h1, h2, h3]
  rw [htr]
  constructor
  · exact hB4
  · intro _
    refine ⟨?_, ?_, ?_⟩
    · simp only [itemsOf_append, itemsOf_cons_banner, itemsOf_cons_progress,
        itemsOf_cons_finished, itemsOf_nil]
      rw [phase1_items env _ env.companies 0 0 h1]
      rw [itemsOf_eq_nil hp2 (by omega), itemsOf_eq_nil hp3 (by omega)]
      simp
    · simp only [itemsOf_append, itemsOf_cons_banner, itemsOf_cons_progress,
        itemsOf_cons_finished, itemsOf_nil]
      rw [itemsOf_eq_nil hp1 (by omega)]
      rw [fileLoop_items env 2 _ env.dataFiles _ _ h2]
      rw [itemsOf_eq_nil hp3 (by omega)]
      simp
    · simp only [itemsOf_append, itemsOf_cons_banner, itemsOf_cons_progress,
        itemsOf_cons_finished, itemsOf_nil]
      rw [itemsOf_eq_nil hp1 (by omega)]
      rw [itemsOf_eq_nil hp2 (by omega)]
      rw [fileLoop_items env 3 _ env.dataFiles _ _ h3]
      simp

/-- C5 witness: a two-company run with one data file, never stopped,
all services responding; the run completes and each phase handles its
items. -/
theorem run_phases_sequential_witness :
    Worker.itemsOf 1 (Worker.run
        ⟨["Nokia", "Kone"], true, true, ["Nokia_data.json"],
          fun _ => true, Worker.floorProg⟩).1 = ["Nokia", "Kone"] ∧
    Worker.itemsOf 2 (Worker.run
        ⟨["Nokia", "Kone"], true, true, ["Nokia_data.json"],
          fun _ => true, Worker.floorProg⟩).1 = ["Nokia_data.json"] ∧
    Worker.itemsOf 3 (Worker.run
        ⟨["Nokia", "Kone"], true, true, ["Nokia_data.json"],
          fun _ => true, Worker.floorProg⟩).1 = ["Nokia_data.json"] :=
  (run_phases_sequential
    ⟨["Nokia", "Kone"], true, true, ["Nokia_data.json"],
      fun _ => true, Worker.floorProg⟩).2 (by decide)

theorem progressValues_append (a b : List Worker.Ev) :
    Worker.progressValues (a ++ b) =
      Worker.progressValues a ++ Worker.progressValues b := by
  simp [Worker.progressValues, List.filterMap_append]

theorem progressValues_nil : Worker.progressValues [] = [] := rfl

theorem progressValues_cons_item (p : Nat) (n : String) (tr : List Worker.Ev) :
    Worker.progressValues (Worker.Ev.item p n :: tr) = Worker.progressValues tr := rfl

theorem progressValues_cons_banner (p : Nat) (tr : List Worker.Ev) :
    Worker.progressValues (Worker.Ev.banner p :: tr) = Worker.progressValues tr := rfl

theorem progressValues_cons_progress (p v : Nat) (tr : List Worker.Ev) :
    Worker.progressValues (Worker.Ev.progress p v :: tr) =
      v :: Worker.progressValues tr := rfl

theorem progressValues_cons_error (p : Nat) (tr : List Worker.Ev) :
    Worker.progressValues (Worker.Ev.errorEmit p :: tr) =
      Worker.progressValues tr := rfl

theorem progressValues_cons_finished (tr : List Worker.Ev) :
    Worker.progressValues (Worker.Ev.finishedEmit :: tr) =
      Worker.progressValues tr := rfl

theorem phase1_progress (env : Worker.Env) (total : Nat) :
    ∀ (cs : List String) (k s : Nat), ∃ m, m ≤ cs.length ∧
      Worker.progressValues (Worker.phase1 env total cs k s).1 =
        (List.range' (s + 1) m).map (fun j => env.prog j total) ∧
      (Worker.phase1 env total cs k s).2.2.1 = s + m ∧
      ((Worker.phase1 env total cs k s).2.2.2 = true → m = cs.length) := by
  intro cs
  induction cs with
  | nil =>
    intro k s
    exact ⟨0, by simp [Worker.phase1, Worker.progressValues]⟩
  | cons c cs2 ih =>
    intro k s
    simp only [Worker.phase1]
    by_cases hr : env.running k = true
    · rw [if_pos hr]
      by_cases hE : cs2.isEmpty = true
      · rw [if_pos hE]
        obtain ⟨m, hmle, hpv, hstep, hdone⟩ := ih (k + 1) (s + 1)
        refine ⟨m + 1, by simp only [List.length_cons]; omega, ?_, ?_, ?_⟩
        · show Worker.progressValues ([Worker.Ev.item 1 c,
            Worker.Ev.progress 1 (env.prog (s + 1) total)] ++
            (Worker.phase1 env total cs2 (k + 1) (s + 1)).1) = _
          rw [progressValues_append, hpv, List.range'_succ, List.map_cons]
          rfl
        · show (Worker.phase1 env total cs2 (k + 1) (s + 1)).2.2.1 = s + (m + 1)
          omega
        · intro hd
          have := hdone (by simpa using hd)
          simp only [List.length_cons]
          omega
      · rw [if_neg hE]
        by_cases hC : Worker.cooldownOk env (k + 1) = true
        · rw [if_pos hC]
          obtain ⟨m, hmle, hpv, hstep, hdone⟩ := ih (k + 11) (s + 1)
          refine ⟨m + 1, by simp only [List.length_cons]; omega, ?_, ?_, ?_⟩
          · show Worker.progressValues ([Worker.Ev.item 1 c,
              Worker.Ev.progress 1 (env.prog (s + 1) total)] ++
              (Worker.phase1 env total cs2 (k + 11) (s + 1)).1) = _
            rw [progressValues_append, hpv, List.range'_succ, List.map_cons]
            rfl
          · show (Worker.phase1 env total cs2 (k + 11) (s + 1)).2.2.1 = s + (m + 1)
            omega
          · intro hd
            have := hdone (by simpa using hd)
            simp only [List.length_cons]
            omega
        · rw [if_neg hC]
          refine ⟨1, by simp, ?_, by simp, by simp⟩
          show Worker.progressValues [Worker.Ev.item 1 c,
            Worker.Ev.progress 1 (env.prog (s + 1) total)] = _
          rw [List.range'_succ, List.map_cons]
          rfl
    · rw [if_neg hr]
      exact ⟨0, by simp [Worker.progressValues]⟩

theorem fileLoop_progress (env : Worker.Env) (p total : Nat) :
    ∀ (fs : List String) (k s : Nat), ∃ m, m ≤ fs.length ∧
      Worker.progressValues (Worker.fileLoop env p total fs k s).1 =
        (List.range' (s + 1) m).map (fun j => env.prog j total) ∧
      (Worker.fileLoop env p total fs k s).2.2.1 = s + m ∧
      ((Worker.fileLoop env p total fs k s).2.2.2 = true → m = fs.length) := by
  intro fs
  induction fs with
  | nil =>
    intro k s
    exact ⟨0, by simp [Worker.fileLoop, Worker.progressValues]⟩
  | cons f fs2 ih =>
    intro k s
    simp only [Worker.fileLoop]
    by_cases hr : env.running k = true
    · rw [if_pos hr]
      obtain ⟨m, hmle, hpv, hstep, hdone⟩ := ih (k + 1) (s + 1)
      refine ⟨m + 1, by simp only [List.length_cons]; omega, ?_, ?_, ?_⟩
      · show Worker.progressValues (Worker.Ev.item p f ::
          Worker.Ev.progress p (env.prog (s + 1) total) ::
          (Worker.fileLoop env p total fs2 (k + 1) (s + 1)).1) = _
        rw [progressValues_cons_item, progressValues_cons_progress, hpv,
          List.range'_succ, List.map_cons]
      · show (Worker.fileLoop env p total fs2 (k + 1) (s + 1)).2.2.1 = s + (m + 1)
        omega
      · intro hd
        have := hdone (by simpa using hd)
        simp only [List.length_cons]
        omega
    · rw [if_neg hr]
      exact ⟨0, by simp [Worker.progressValues]⟩

theorem mem_progress_map {env : Worker.Env} {total a m v : Nat}
    (hv : v ∈ (List.range' a m).map (fun j => env.prog j total)) :
    ∃ j, a ≤ j ∧ j < a + m ∧ v = env.prog j total := by
  obtain ⟨j, hj, rfl⟩ := List.mem_map.mp hv
  obtain ⟨hj1, hj2⟩ := List.mem_range'_1.mp hj
  exact ⟨j, hj1, hj2, rfl⟩

theorem progress_map_pairwise (env : Worker.Env) (total : Nat)
    (hmono : ∀ s1 s2 t, s1 ≤ s2 → env.prog s1 t ≤ env.prog s2 t) (a m : Nat) :
    ((List.range' a m).map (fun j => env.prog j total)).Pairwise (· ≤ ·) := by
  rw [List.pairwise_map]
  exact List.Pairwise.imp (fun hlt => hmono _ _ _ (le_of_lt hlt))
    (List.pairwise_lt_range' a m)

theorem progress_map_bound (env : Worker.Env) (total : Nat)
    (hbound : ∀ s t, s ≤ t → env.prog s t ≤ 100) (a m : Nat)
    (hm : a + m ≤ total + 1) :
    ∀ v ∈ (List.range' a m).map (fun j => env.prog j total), v ≤ 100 := by
  intro v hv
  obtain ⟨j, _, hj2, rfl⟩ := mem_progress_map hv
  exact hbound j total (by omega)

theorem progress_cross (env : Worker.Env) (total : Nat)
    (hmono : ∀ s1 s2 t, s1 ≤ s2 → env.prog s1 t ≤ env.prog s2 t)
    (a1 m1 a2 m2 : Nat) (hle : a1 + m1 ≤ a2 + 1) :
    ∀ x ∈ (List.range' a1 m1).map (fun j => env.prog j total),
      ∀ y ∈ (List.range' a2 m2).map (fun j => env.prog j total), x ≤ y := by
  intro x hx y hy
  obtain ⟨i, _, hi2, rfl⟩ := mem_progress_map hx
  obtain ⟨j, hj1, _, rfl⟩ := mem_progress_map hy
  exact hmono _ _ _ (by omega)

theorem pairwise_le_app {A B : List Nat} (hA : A.Pairwise (· ≤ ·))
    (hB : B.Pairwise (· ≤ ·)) (hcross : ∀ a ∈ A, ∀ b ∈ B, a ≤ b) :
    (A ++ B).Pairwise (· ≤ ·) :=
  List.pairwise_append.mpr ⟨hA, hB, hcross⟩

theorem all_mem_append {α : Type} {P : α → Prop} {l1 l2 : List α}
    (h1 : ∀ e ∈ l1, P e) (h2 : ∀ e ∈ l2, P e) : ∀ e ∈ l1 ++ l2, P e :=
  fun e he => (List.mem_append.mp he).elim (h1 e) (h2 e)

theorem floorProg_mono : ∀ s1 s2 t : Nat, s1 ≤ s2 →
    Worker.floorProg s1 t ≤ Worker.floorProg s2 t := by
  intro s1 s2 t h
  exact Nat.div_le_div_right (Nat.mul_le_mul_right 100 h)

theorem floorProg_le_100 : ∀ s t : Nat, s ≤ t → Worker.floorProg s t ≤ 100 := by
  intro s t h
  unfold Worker.floorProg
  rcases Nat.eq_zero_or_pos t with rfl | ht
  · interval_cases s
    simp
  · calc s * 100 / t ≤ t * 100 / t := Nat.div_le_div_right (Nat.mul_le_mul_right 100 h)
    _ = 100 := by
        rw [Nat.mul_comm]
        exact Nat.mul_div_cancel 100 ht

/-- C6: whenever the number of `*_data.json` files found is at most the
number of companies, the emitted progress values are nondecreasing and
lie in `[0, 100]`, and a completed run's final emitted value is exactly
100. The float computation `int((step / total) * 100)` enters through
`env.prog`, constrained only by the monotonicity and boundedness that
IEEE-754 division, multiplication and truncation guarantee. -/
theorem run_progress_spec (env : Worker.Env)
    (hf : env.dataFiles.length ≤ env.companies.length)
    (hmono : ∀ s1 s2 t, s1 ≤ s2 → env.prog s1 t ≤ env.prog s2 t)
    (hbound : ∀ s t, s ≤ t → env.prog s t ≤ 100) :
    (Worker.progressValues (Worker.run env).1).Pairwise (· ≤ ·) ∧
    (∀ v ∈ Worker.progressValues (Worker.run env).1, 0 ≤ v ∧ v ≤ 100) ∧
    ((Worker.run env).2 = true →
      (Worker.progressValues (Worker.run env).1).getLast? = some 100) := by
  obtain ⟨m1, hm1le, hpv1, hstep1, hm1⟩ :=
    phase1_progress env (env.companies.length * 3 + 1) env.companies 0 0
  obtain ⟨m2, hm2le, hpv2, hstep2, hm2⟩ :=
    fileLoop_progress env 2 (env.companies.length * 3 + 1) env.dataFiles
      (Worker.phase1 env (env.companies.length * 3 + 1) env.companies 0 0).2.1
      (Worker.phase1 env (env.companies.length * 3 + 1) env.companies 0 0).2.2.1
  obtain ⟨m3, hm3le, hpv3, hstep3, hm3⟩ :=
    fileLoop_progress env 3 (env.companies.length * 3 + 1) env.dataFiles
      (Worker.fileLoop env 2 (env.companies.length * 3 + 1) env.dataFiles
        (Worker.phase1 env (env.companies.length * 3 + 1) env.companies 0 0).2.1
        (Worker.phase1 env (env.companies.length * 3 + 1)
          env.companies 0 0).2.2.1).2.1
      (Worker.fileLoop env 2 (env.companies.length * 3 + 1) env.dataFiles
        (Worker.phase1 env (env.companies.length * 3 + 1) env.companies 0 0).2.1
        (Worker.phase1 env (env.companies.length * 3 + 1)
          env.companies 0 0).2.2.1).2.2.1
  by_cases ht : env.templateExists = true
  case neg =>
    have htr : Worker.run env =
        ([Worker.Ev.banner 0, Worker.Ev.errorEmit 0], false) := by
      simp [Worker.run, ht]
    rw [htr]
    refine ⟨?_, ?_, ?_⟩
    · rw [show Worker.progressValues [Worker.Ev.banner 0, Worker.Ev.errorEmit 0] =
        [] from rfl]
      exact List.Pairwise.nil
    · rw [show Worker.progressValues [Worker.Ev.banner 0, Worker.Ev.errorEmit 0] =
        [] from rfl]
      intro v hv
      simp at hv
    · intro hdone
      simp at hdone
  case pos =>
  by_cases ha : env.apiKeyOk = true
  case neg =>
    have htr : Worker.run env =
        ([Worker.Ev.banner 0, Worker.Ev.banner 1, Worker.Ev.errorEmit 1], false) := by
      simp [Worker.run, ht, ha]
    rw [htr]
    refine ⟨?_, ?_, ?_⟩
    · rw [show Worker.progressValues [Worker.Ev.banner 0, Worker.Ev.banner 1,
        Worker.Ev.errorEmit 1] = [] from rfl]
      exact List.Pairwise.nil
    · rw [show Worker.progressValues [Worker.Ev.banner 0, Worker.Ev.banner 1,
        Worker.Ev.errorEmit 1] = [] from rfl]
      intro v hv
      simp at hv
    · intro hdone
      simp at hdone
  case pos =>
  by_cases h1 : (Worker.phase1 env (env.companies.length * 3 + 1)
      env.companies 0 0).2.2.2 = true
  case neg =>
    have htr : Worker.run env = ([Worker.Ev.banner 0, Worker.Ev.banner 1] ++
        (Worker.phase1 env (env.companies.length * 3 + 1) env.companies 0 0).1,
        false) := by
      simp [Worker.run, ht, ha, h1]
    rw [htr]
    have hpvt : Worker.progressValues ([Worker.Ev.banner 0, Worker.Ev.banner 1] ++
        (Worker.phase1 env (env.companies.length * 3 + 1) env.companies 0 0).1) =
        (List.range' (0 + 1) m1).map
          (fun j => env.prog j (env.companies.length * 3 + 1)) := by
      rw [progressValues_append, hpv1]
      rfl
    refine ⟨?_, ?_, ?_⟩
    · rw [hpvt]
      exact progress_map_pairwise env _ hmono _ _
    · rw [hpvt]
      intro v hv
      exact ⟨Nat.zero_le v, progress_map_bound env _ hbound _ _ (by omega) v hv⟩
    · intro hdone
      simp at hdone
  case pos =>
  have hm1n := hm1 h1
  by_cases h2 : (Worker.fileLoop env 2 (env.companies.length * 3 + 1) env.dataFiles
      (Worker.phase1 env (env.companies.length * 3 + 1) env.companies 0 0).2.1
      (Worker.phase1 env (env.companies.length * 3 + 1)
        env.companies 0 0).2.2.1).2.2.2 = true
  case neg =>
    have htr : Worker.run env = ([Worker.Ev.banner 0, Worker.Ev.banner 1] ++
        (Worker.phase1 env (env.companies.length * 3 + 1) env.companies 0 0).1 ++
        (Worker.Ev.banner 2 ::
          (Worker.fileLoop env 2 (env.companies.length * 3 + 1) env.dataFiles
            (Worker.phase1 env (env.companies.length * 3 + 1) env.companies 0 0).2.1
            (Worker.phase1 env (env.companies.length * 3 + 1)
              env.companies 0 0).2.2.1).1),
        false) := by
      simp [Worker.run, ht, ha, h1, h2]
    rw [htr]
    have hpvt : Worker.progressValues (([Worker.Ev.banner 0, Worker.Ev.banner 1] ++
        (Worker.phase1 env (env.companies.length * 3 + 1) env.companies 0 0).1) ++
        (Worker.Ev.banner 2 ::
          (Worker.fileLoop env 2 (env.companies.length * 3 + 1) env.dataFiles
            (Worker.phase1 env (env.companies.length * 3 + 1) env.companies 0 0).2.1
            (Worker.phase1 env (env.companies.length * 3 + 1)
              env.companies 0 0).2.2.1).1)) =
        (List.range' (0 + 1) m1).map
          (fun j => env.prog j (env.companies.length * 3 + 1)) ++
        (List.range' ((Worker.phase1 env (env.companies.length * 3 + 1)
            env.companies 0 0).2.2.1 + 1) m2).map
          (fun j => env.prog j (env.companies.length * 3 + 1)) := by
      rw [progressValues_append, progressValues_append, hpv1,
        progressValues_cons_banner, progressValues_cons_banner,
        progressValues_cons_banner, hpv2]
      rfl
    refine ⟨?_, ?_, ?_⟩
    · rw [hpvt]
      exact pairwise_le_app (progress_map_pairwise env _ hmono _ _)
        (progress_map_pairwise env _ hmono _ _)
        (progress_cross env _ hmono _ _ _ _ (by omega))
    · rw [hpvt]
      intro v hv
      refine ⟨Nat.zero_le v, ?_⟩
      rcases List.mem_append.mp hv with h | h
      · exact progress_map_bound env _ hbound _ _ (by omega) v h
      · exact progress_map_bound env _ hbound _ _ (by omega) v h
    · intro hdone
      simp at hdone
  case pos =>
  have hm2f := hm2 h2
  by_cases h3 : (Worker.fileLoop env 3 (env.companies.length * 3 + 1) env.dataFiles
      (Worker.fileLoop env 2 (env.companies.length * 3 + 1) env.dataFiles
        (Worker.phase1 env (env.companies.length * 3 + 1) env.companies 0 0).2.1
        (Worker.phase1 env (env.companies.length * 3 + 1)
          env.companies 0 0).2.2.1).2.1
      (Worker.fileLoop env 2 (env.companies.length * 3 + 1) env.dataFiles
        (Worker.phase1 env (env.companies.length * 3 + 1) env.companies 0 0).2.1
        (Worker.phase1 env (env.companies.length * 3 + 1)
          env.companies 0 0).2.2.1).2.2.1).2.2.2 = true
  case neg =>
    have htr : Worker.run env = ([Worker.Ev.banner 0, Worker.Ev.banner 1] ++
        (Worker.phase1 env (env.companies.length * 3 + 1) env.companies 0 0).1 ++
        (Worker.Ev.banner 2 ::
          (Worker.fileLoop env 2 (env.companies.length * 3 + 1) env.dataFiles
            (Worker.phase1 env (env.companies.length * 3 + 1) env.companies 0 0).2.1
            (Worker.phase1 env (env.companies.length * 3 + 1)
              env.companies 0 0).2.2.1).1) ++
        (Worker.Ev.banner 3 ::
          (Worker.fileLoop env 3 (env.companies.length * 3 + 1) env.dataFiles
            (Worker.fileLoop env 2 (env.companies.length * 3 + 1) env.dataFiles
              (Worker.phase1 env (env.companies.length * 3 + 1) env.companies 0 0).2.1
              (Worker.phase1 env (env.companies.length * 3 + 1)
                env.companies 0 0).2.2.1).2.1
            (Worker.fileLoop env 2 (env.companies.length * 3 + 1) env.dataFiles
              (Worker.phase1 env (env.companies.length * 3 + 1) env.companies 0 0).2.1
              (Worker.phase1 env (env.companies.length * 3 + 1)
                env.companies 0 0).2.2.1).2.2.1).1),
        false) := by
      simp [Worker.run, ht, ha, h1, h2, h3]
    rw [htr]
    have hpvt : Worker.progressValues ((([Worker.Ev.banner 0, Worker.Ev.banner 1] ++
        (Worker.phase1 env (env.companies.length * 3 + 1) env.companies 0 0).1) ++
        (Worker.Ev.banner 2 ::
          (Worker.fileLoop env 2 (env.companies.length * 3 + 1) env.dataFiles
            (Worker.phase1 env (env.companies.length * 3 + 1) env.companies 0 0).2.1
            (Worker.phase1 env (env.companies.length * 3 + 1)
              env.companies 0 0).2.2.1).1)) ++
        (Worker.Ev.banner 3 ::
          (Worker.fileLoop env 3 (env.companies.length * 3 + 1) env.dataFiles
            (Worker.fileLoop env 2 (env.companies.length * 3 + 1) env.dataFiles
              (Worker.phase1 env (env.companies.length * 3 + 1) env.companies 0 0).2.1
              (Worker.phase1 env (env.companies.length * 3 + 1)
                env.companies 0 0).2.2.1).2.1
            (Worker.fileLoop env 2 (env.companies.length * 3 + 1) env.dataFiles
              (Worker.phase1 env (env.companies.length * 3 + 1) env.companies 0 0).2.1
              (Worker.phase1 env (env.companies.length * 3 + 1)
                env.companies 0 0).2.2.1).2.2.1).1)) =
        ((List.range' (0 + 1) m1).map
          (fun j => env.prog j (env.companies.length * 3 + 1)) ++
        (List.range' ((Worker.phase1 env (env.companies.length * 3 + 1)
            env.companies 0 0).2.2.1 + 1) m2).map
          (fun j => env.prog j (env.companies.length * 3 + 1))) ++
        (List.range' ((Worker.fileLoop env 2 (env.companies.length * 3 + 1)
            env.dataFiles
            (Worker.phase1 env (env.companies.length * 3 + 1) env.companies 0 0).2.1
            (Worker.phase1 env (env.companies.length * 3 + 1)
              env.companies 0 0).2.2.1).2.2.1 + 1) m3).map
          (fun j => env.prog j (env.companies.length * 3 + 1)) := by
      rw [progressValues_append, progressValues_append, progressValues_append,
        hpv1, progressValues_cons_banner, progressValues_cons_banner,
        progressValues_cons_banner, hpv2, progressValues_cons_banner, hpv3]
      rfl
    refine ⟨?_, ?_, ?_⟩
    · rw [hpvt]
      refine pairwise_le_app (pairwise_le_app (progress_map_pairwise env _ hmono _ _)
        (progress_map_pairwise env _ hmono _ _)
        (progress_cross env _ hmono _ _ _ _ (by omega)))
        (progress_map_pairwise env _ hmono _ _) ?_
      intro x hx y hy
      rcases List.mem_append.mp hx with h | h
      · exact progress_cross env _ hmono _ _ _ _ (by omega) x h y hy
      · exact progress_cross env _ hmono _ _ _ _ (by omega) x h y hy
    · rw [hpvt]
      intro v hv
      refine ⟨Nat.zero_le v, ?_⟩
      rcases List.mem_append.mp hv with h | h
      · rcases List.mem_append.mp h with h' | h'
        · exact progress_map_bound env _ hbound _ _ (by omega) v h'
        · exact progress_map_bound env _ hbound _ _ (by omega) v h'
      · exact progress_map_bound env _ hbound _ _ (by omega) v h
    · intro hdone
      simp at hdone
  case pos =>
  have hm3f := hm3 h3
  have htr : Worker.run env = ([Worker.Ev.banner 0, Worker.Ev.banner 1] ++
      (Worker.phase1 env (env.companies.length * 3 + 1) env.companies 0 0).1 ++
      (Worker.Ev.banner 2 ::
        (Worker.fileLoop env 2 (env.companies.length * 3 + 1) env.dataFiles
          (Worker.phase1 env (env.companies.length * 3 + 1) env.companies 0 0).2.1
          (Worker.phase1 env (env.companies.length * 3 + 1)
            env.companies 0 0).2.2.1).1) ++
      (Worker.Ev.banner 3 ::
        (Worker.fileLoop env 3 (env.companies.length * 3 + 1) env.dataFiles
          (Worker.fileLoop env 2 (env.companies.length * 3 + 1) env.dataFiles
            (Worker.phase1 env (env.companies.length * 3 + 1) env.companies 0 0).2.1
            (Worker.phase1 env (env.companies.length * 3 + 1)
              env.companies 0 0).2.2.1).2.1
          (Worker.fileLoop env 2 (env.companies.length * 3 + 1) env.dataFiles
            (Worker.phase1 env (env.companies.length * 3 + 1) env.companies 0 0).2.1
            (Worker.phase1 env (env.companies.length * 3 + 1)
              env.companies 0 0).2.2.1).2.2.1).1) ++
      [Worker.Ev.banner 4, Worker.Ev.progress 4 100, Worker.Ev.finishedEmit],
      true) := by
    simp [Worker.run, ht, ha, h1, h2, h3]
  rw [htr]
  have hpvt : Worker.progressValues (((([Worker.Ev.banner 0, Worker.Ev.banner 1] ++
      (Worker.phase1 env (env.companies.length * 3 + 1) env.companies 0 0).1) ++
      (Worker.Ev.banner 2 ::
        (Worker.fileLoop env 2 (env.companies.length * 3 + 1) env.dataFiles
          (Worker.phase1 env (env.companies.length * 3 + 1) env.companies 0 0).2.1
          (Worker.phase1 env (env.companies.length * 3 + 1)
            env.companies 0 0).2.2.1).1)) ++
      (Worker.Ev.banner 3 ::
        (Worker.fileLoop env 3 (env.companies.length * 3 + 1) env.dataFiles
          (Worker.fileLoop env 2 (env.companies.length * 3 + 1) env.dataFiles
            (Worker.phase1 env (env.companies.length * 3 + 1) env.companies 0 0).2.1
            (Worker.phase1 env (env.companies.length * 3 + 1)
              env.companies 0 0).2.2.1).2.1
          (Worker.fileLoop env 2 (env.companies.length * 3 + 1) env.dataFiles
            (Worker.phase1 env (env.companies.length * 3 + 1) env.companies 0 0).2.1
            (Worker.phase1 env (env.companies.length * 3 + 1)
              env.companies 0 0).2.2.1).2.2.1).1)) ++
      [Worker.Ev.banner 4, Worker.Ev.progress 4 100, Worker.Ev.finishedEmit]) =
      (((List.range' (0 + 1) m1).map
        (fun j => env.prog j (env.companies.length * 3 + 1)) ++
      (List.range' ((Worker.phase1 env (env.companies.length * 3 + 1)
          env.companies 0 0).2.2.1 + 1) m2).map
        (fun j => env.prog j (env.companies.length * 3 + 1))) ++
      (List.range' ((Worker.fileLoop env 2 (env.companies.length * 3 + 1)
          env.dataFiles
          (Worker.phase1 env (env.companies.length * 3 + 1) env.companies 0 0).2.1
          (Worker.phase1 env (env.companies.length * 3 + 1)
            env.companies 0 0).2.2.1).2.2.1 + 1) m3).map
        (fun j => env.prog j (env.companies.length * 3 + 1))) ++ [100] := by
    rw [progressValues_append, progressValues_append, progressValues_append,
      progressValues_append, hpv1, progressValues_cons_banner,
      progressValues_cons_banner, progressValues_cons_banner, hpv2,
      progressValues_cons_banner, hpv3]
    rfl
  have hall100 : ∀ x ∈ ((List.range' (0 + 1) m1).map
      (fun j => env.prog j (env.companies.length * 3 + 1)) ++
      (List.range' ((Worker.phase1 env (env.companies.length * 3 + 1)
          env.companies 0 0).2.2.1 + 1) m2).map
        (fun j => env.prog j (env.companies.length * 3 + 1))) ++
      (List.range' ((Worker.fileLoop env 2 (env.companies.length * 3 + 1)
          env.dataFiles
          (Worker.phase1 env (env.companies.length * 3 + 1) env.companies 0 0).2.1
          (Worker.phase1 env (env.companies.length * 3 + 1)
            env.companies 0 0).2.2.1).2.2.1 + 1) m3).map
        (fun j => env.prog j (env.companies.length * 3 + 1)), x ≤ 100 := by
    intro v hv
    rcases List.mem_append.mp hv with h | h
    · rcases List.mem_append.mp h with h' | h'
      · exact progress_map_bound env _ hbound _ _ (by omega) v h'
      · exact progress_map_bound env _ hbound _ _ (by omega) v h'
    · exact progress_map_bound env _ hbound _ _ (by omega) v h
  refine ⟨?_, ?_, ?_⟩
  · rw [hpvt]
    refine pairwise_le_app ?_ ?_ ?_
    · refine pairwise_le_app (pairwise_le_app (progress_map_pairwise env _ hmono _ _)
        (progress_map_pairwise env _ hmono _ _)
        (progress_cross env _ hmono _ _ _ _ (by omega)))
        (progress_map_pairwise env _ hmono _ _) ?_
      intro x hx y hy
      rcases List.mem_append.mp hx with h | h
      · exact progress_cross env _ hmono _ _ _ _ (by omega) x h y hy
      · exact progress_cross env _ hmono _ _ _ _ (by omega) x h y hy
    · exact List.pairwise_singleton _ _
    · intro x hx y hy
      rcases List.mem_cons.mp hy with rfl | hy2
      · exact hall100 x hx
      · simp at hy2
  · rw [hpvt]
    intro v hv
    refine ⟨Nat.zero_le v, ?_⟩
    rcases List.mem_append.mp hv with h | h
    · exact hall100 v h
    · rcases List.mem_cons.mp h with rfl | h2
      · exact le_refl 100
      · simp at h2
  · intro _
    rw [hpvt]
    exact List.getLast?_concat _

/-- C6 witness: the concrete two-company one-data-file run with the exact
integer progress arithmetic; the final progress emission is 100. -/
theorem run_progress_spec_witness :
    (Worker.progressValues (Worker.run
        ⟨["Nokia", "Kone"], true, true, ["Nokia_data.json"],
          fun _ => true, Worker.floorProg⟩).1).getLast? = some 100 :=
  (run_progress_spec
    ⟨["Nokia", "Kone"], true, true, ["Nokia_data.json"],
      fun _ => true, Worker.floorProg⟩
    (by decide) floorProg_mono floorProg_le_100).2.2 (by decide)

/-! ## C1 — src/main.py, `main` -/

/-- C1 counterexample: a run of `main` with a non-empty company list and
the API key set in which every AI generation fails, so the glob after
step 1 finds no `*_data.json` file. `main` then returns after step 1 and
the logo, HTML and PDF phases never run, refuting the claim as stated. -/
theorem main_all_phases_counterexample :
    (["Nokia"] : List String) ≠ [] ∧
    Main.mainRun ⟨some "key", ["Nokia"], []⟩ =
      [Main.Step.aiPhase "Nokia", Main.Step.noData] ∧
    Main.performsAllFourPhases (Main.mainRun ⟨some "key", ["Nokia"], []⟩) = false := by
  decide

/-- C1 (amended): for every non-empty company list, `main` performs all
four phases provided the `GEMINI_API_KEY` is set and the glob after the
AI phase finds at least one `*_data.json` file; the phases then run in
order — AI generation per company, then logo acquisition per data file,
then HTML generation per data file, then PDF rendering. -/
theorem main_all_phases (env : Main.Env) (hc : env.companies ≠ [])
    (hk : env.apiKey.isSome = true) (hd : env.dataFiles ≠ []) :
    Main.mainRun env =
      env.companies.map Main.Step.aiPhase ++
      env.dataFiles.map Main.Step.logoPhase ++
      env.dataFiles.map Main.Step.htmlPhase ++ [Main.Step.pdfPhase] ∧
    Main.performsAllFourPhases (Main.mainRun env) = true := by
  obtain ⟨k, hk2⟩ := Option.isSome_iff_exists.mp hk
  have heq : Main.mainRun env =
      env.companies.map Main.Step.aiPhase ++
      env.dataFiles.map Main.Step.logoPhase ++
      env.dataFiles.map Main.Step.htmlPhase ++ [Main.Step.pdfPhase] := by
    rw [Main.mainRun, hk2]
    rw [if_neg (by simp [List.isEmpty_iff, hd])]
  refine ⟨heq, ?_⟩
  rw [heq]
  rcases hcc : env.companies with _ | ⟨c, cs⟩
  · exact absurd hcc hc
  rcases hdd : env.dataFiles with _ | ⟨f, fs⟩
  · exact absurd hdd hd
  simp [Main.performsAllFourPhases, List.any_append]

/-- C1 witness: one company, the key set, one data file found; all four
phases run. -/
theorem main_all_phases_witness :
    Main.performsAllFourPhases (Main.mainRun
      ⟨some "k", ["Nokia"], ["Nokia_data.json"]⟩) = true :=
  (main_all_phases ⟨some "k", ["Nokia"], ["Nokia_data.json"]⟩
    (by decide) (by decide) (by decide)).2

end CompanyProfile
